import Mathlib

/-!
Verification of the PapilioMCP debug interface (`src/PapilioMCP.h`).

The source is a single C++ header implementing a line-oriented debug
command interpreter, an SPI-based Wishbone bus driver, a pause/breakpoint
execution-control state machine, and a JTAG bridge toggle.  We give a
shallow embedding: the member variables of `PapilioMCPClass` become a
`MCPState` record, the SPI endpoint is abstracted as a per-byte transfer
function (`SpiBus`), serial output is collected as a list of lines, and
serial input is passed in as explicit character lists.  The blocking
`breakpoint` call is modelled over a finite schedule of input chunks (one
chunk per poll-loop iteration); `none` means the call has not returned
within the schedule.
-/

namespace PapilioMCP

/-- C `isspace`: space or the control characters 9..13 (as used by
`String::trim` and by `strtol` for leading-whitespace skipping). -/
def isSpaceChar (c : Char) : Bool :=
  if c.toNat = 32 ∨ (9 ≤ c.toNat ∧ c.toNat ≤ 13) then true else false

/-- Arduino `String::trim()`: drop leading and trailing whitespace. -/
def trimChars (cs : List Char) : List Char :=
  ((cs.dropWhile isSpaceChar).reverse.dropWhile isSpaceChar).reverse

/-- Uppercase hex digit for `printf %X`. -/
def hexDigit (n : Nat) : Char :=
  if n < 10 then Char.ofNat (48 + n) else Char.ofNat (55 + n)

/-- `printf %02X` on a byte. -/
def hex2 (n : Nat) : String :=
  ⟨[hexDigit (n / 16 % 16), hexDigit (n % 16)]⟩

/-- `printf %04X` on a 16-bit value. -/
def hex4 (n : Nat) : String :=
  hex2 (n / 256 % 256) ++ hex2 (n % 256)

/-- Value of a hex digit character, if it is one. -/
def hexVal (c : Char) : Option Nat :=
  if 48 ≤ c.toNat ∧ c.toNat ≤ 57 then some (c.toNat - 48)
  else if 65 ≤ c.toNat ∧ c.toNat ≤ 70 then some (c.toNat - 55)
  else if 97 ≤ c.toNat ∧ c.toNat ≤ 102 then some (c.toNat - 87)
  else none

/-- Accumulate leading hex digits, stopping at the first non-digit
(the way `strtol` consumes its subject sequence). -/
def hexAcc : List Char → Nat → Nat
  | [], acc => acc
  | c :: cs, acc =>
    match hexVal c with
    | some d => hexAcc cs (16 * acc + d)
    | none => acc

/-- Body of `strtol(_, _, 16)` after whitespace and sign: an optional
`0x`/`0X` prefix (consumed only when followed by a hex digit), then hex
digits. -/
def strtolHexBody : List Char → Nat
  | '0' :: c :: cs =>
    if c = 'x' ∨ c = 'X' then
      match cs with
      | d :: _ => if (hexVal d).isSome then hexAcc cs 0 else 0
      | [] => 0
    else hexAcc ('0' :: c :: cs) 0
  | cs => hexAcc cs 0

/-- C `strtol(s, NULL, 16)`: skip whitespace, optional sign, then a hex
numeral.  The 4- and 2-character command fields cannot overflow `long`. -/
def strtol16 (cs : List Char) : Int :=
  match cs.dropWhile isSpaceChar with
  | '-' :: rest => -(strtolHexBody rest : Int)
  | '+' :: rest => (strtolHexBody rest : Int)
  | rest => (strtolHexBody rest : Int)

/-- Conversion of a C `long` to `uint16_t` (reduction mod 2^16). -/
def toUint16 (v : Int) : Nat := (v % 65536).toNat

/-- Conversion of a C `long` to `uint8_t` (reduction mod 2^8). -/
def toUint8 (v : Int) : Nat := (v % 256).toNat

/-- Arduino `String::substring(a, b)` on the character list: characters
at indices `a .. b-1`, clamped to the string length. -/
def field (cs : List Char) (a b : Nat) : List Char :=
  (cs.drop a).take (b - a)

/-- `strtol(cmd.substring(2, 6).c_str(), NULL, 16)` into a `uint16_t`. -/
def parseAddr (cs : List Char) : Nat := toUint16 (strtol16 (field cs 2 6))

/-- `strtol(cmd.substring(7, 9).c_str(), NULL, 16)` into a `uint8_t`. -/
def parseByteAt7 (cs : List Char) : Nat := toUint8 (strtol16 (field cs 7 9))

/-- An SPI endpoint: a per-byte full-duplex `transfer` and the
chip-select deassertion that ends a transaction. -/
structure SpiBus (σ : Type) where
  transfer : σ → Nat → σ × Nat
  deselect : σ → σ

/-- The member variables of `PapilioMCPClass`. -/
structure MCPState (σ : Type) where
  spi : Option σ
  cmdBuffer : List Char
  jtagEnabled : Bool
  paused : Bool
  breakpointsEnabled : Bool
  atBreakpoint : Bool
  breakpointCount : Nat
  deriving Repr, DecidableEq

/-- The in-class member initializers: `_spi = nullptr`,
`_jtagEnabled = false`, `_paused = false`, `_breakpointsEnabled = true`,
`_atBreakpoint = false`, `_breakpointCount = 0`. -/
def initState {σ : Type} : MCPState σ :=
  { spi := none
    cmdBuffer := []
    jtagEnabled := false
    paused := false
    breakpointsEnabled := true
    atBreakpoint := false
    breakpointCount := 0 }

/-- `wishboneWrite`: if no endpoint, return immediately; otherwise
transfer opcode `0x01`, address high byte, address low byte, data byte,
then deassert chip select.  The parameters pass through `uint16_t` and
`uint8_t`, hence the entry masks. -/
def wishboneWrite {σ : Type} (bus : SpiBus σ) (spi : Option σ)
    (address data : Nat) : Option σ :=
  match spi with
  | none => none
  | some s =>
    let address := address % 65536
    let data := data % 256
    let s := (bus.transfer s 0x01).1
    let s := (bus.transfer s ((address >>> 8) % 256)).1
    let s := (bus.transfer s (address % 256)).1
    let s := (bus.transfer s data).1
    some (bus.deselect s)

/-- `wishboneRead`: if no endpoint, return 0; otherwise transfer opcode
`0x00`, address high byte, address low byte, then clock one dummy `0x00`
byte whose response (a `uint8_t`) is the result. -/
def wishboneRead {σ : Type} (bus : SpiBus σ) (spi : Option σ)
    (address : Nat) : Option σ × Nat :=
  match spi with
  | none => (none, 0)
  | some s =>
    let address := address % 65536
    let s := (bus.transfer s 0x00).1
    let s := (bus.transfer s ((address >>> 8) % 256)).1
    let s := (bus.transfer s (address % 256)).1
    let r := bus.transfer s 0x00
    (some (bus.deselect r.1), r.2 % 256)

/-- `enableJTAG` (the pin and peripheral-register writes are external
side effects; the retained state is the `_jtagEnabled` flag). -/
def enableJTAG {σ : Type} (st : MCPState σ) : MCPState σ × List String :=
  ({ st with jtagEnabled := true }, [("[MCP] JTAG bridge enabled")])

/-- `disableJTAG`. -/
def disableJTAG {σ : Type} (st : MCPState σ) : MCPState σ × List String :=
  ({ st with jtagEnabled := false }, [("[MCP] JTAG bridge disabled")])

/-- `pause()`: set `_paused` and print. -/
def pause {σ : Type} (st : MCPState σ) : MCPState σ × List String :=
  ({ st with paused := true }, [("[MCP] Sketch PAUSED - MCP has full control")])

/-- `resume()`: clear `_paused` and `_atBreakpoint` and print. -/
def resume {σ : Type} (st : MCPState σ) : MCPState σ × List String :=
  ({ st with paused := false, atBreakpoint := false }, [("[MCP] Sketch RESUMED")])

/-- `enableBreakpoints()`. -/
def enableBreakpoints {σ : Type} (st : MCPState σ) : MCPState σ :=
  { st with breakpointsEnabled := true }

/-- `disableBreakpoints()`: sets only `_breakpointsEnabled` (it does not
touch `_atBreakpoint`). -/
def disableBreakpoints {σ : Type} (st : MCPState σ) : MCPState σ :=
  { st with breakpointsEnabled := false }

/-- The `M` command loop `for (i = 0; i < count; i++)`: `count`
independent single-byte reads at `addr + i`, appending " %02X" to the
response line for each (rendered with the final iteration applied
last). -/
def mRun {σ : Type} (bus : SpiBus σ) (spi : Option σ) (addr : Nat) :
    Nat → Option σ × String
  | 0 => (spi, "")
  | n + 1 =>
    let p := mRun bus spi addr n
    let r := wishboneRead bus p.1 (addr + n)
    (r.1, p.2 ++ (" ") ++ hex2 r.2)

/-- The `D` command loop over a list of addresses, printing
`"  [%04X] = %02X"` for each. -/
def dumpLoop {σ : Type} (bus : SpiBus σ) : Option σ → List Nat → Option σ × List String
  | spi, [] => (spi, [])
  | spi, a :: rest =>
    let r := wishboneRead bus spi a
    let t := dumpLoop bus r.1 rest
    (t.1, (("  [") ++ hex4 a ++ ("] = ") ++ hex2 r.2) :: t.2)

/-- "ENABLED"/"disabled" as printed by several status lines. -/
def enStr (b : Bool) : String := if b then ("ENABLED") else ("disabled")

/-- "PAUSED"/"running" as printed by the sketch status lines. -/
def pausedStr (b : Bool) : String := if b then ("PAUSED") else ("running")

/-- The command lines that, processed from a blocking breakpoint state
(`atBreakpoint ∧ breakpointsEnabled ∧ paused`), release the blocking
loop: `C`, `B 0`, argument-less `P` (toggle, which resumes because the
state is paused), and `P 0`.  The argument is the trimmed line. -/
def releaseLine (cs : List Char) : Bool :=
  let c := cs.headD ' '
  if c = 'C' ∨ c = 'c' then true
  else if c = 'P' ∨ c = 'p' then
    if 3 ≤ cs.length then decide (cs.getD 2 ' ' = '0') else true
  else if c = 'B' ∨ c = 'b' then
    if 3 ≤ cs.length then decide (cs.getD 2 ' ' = '0') else false
  else false

/-- Modelled from the spec claim wording: the release set the claim
asserts, namely a `C` command line or a `B 0` command line only.  Used
solely to compare the claimed release paths with the code's actual
ones. -/
def specReleaseCorB0 (cs : List Char) : Bool :=
  let c := cs.headD ' '
  if c = 'C' ∨ c = 'c' then true
  else if (c = 'B' ∨ c = 'b') ∧ 3 ≤ cs.length ∧ cs.getD 2 ' ' = '0' then true
  else false

/-- The echo `Serial.print("[MCP] "); Serial.println(cmd);`. -/
def echoOf (cs : List Char) : String := ("[MCP] ") ++ (⟨cs⟩ : String)

/-- The `case 'W'` block of `processCommand`. -/
def wCase {σ : Type} (bus : SpiBus σ) (st : MCPState σ) (cs : List Char) :
    MCPState σ × List String :=
  if 9 ≤ cs.length then
    ({ st with spi := wishboneWrite bus st.spi (parseAddr cs) (parseByteAt7 cs) },
     [("OK W ") ++ hex4 (parseAddr cs) ++ ("=") ++ hex2 (parseByteAt7 cs)])
  else (st, [("ERR: W AAAA DD")])

/-- The `case 'R'` block of `processCommand`. -/
def rCase {σ : Type} (bus : SpiBus σ) (st : MCPState σ) (cs : List Char) :
    MCPState σ × List String :=
  if 6 ≤ cs.length then
    ({ st with spi := (wishboneRead bus st.spi (parseAddr cs)).1 },
     [("OK R ") ++ hex4 (parseAddr cs) ++ ("=") ++
        hex2 (wishboneRead bus st.spi (parseAddr cs)).2])
  else (st, [("ERR: R AAAA")])

/-- The `case 'M'` block of `processCommand`: parse, clamp the count to
64, then run the read loop. -/
def mCase {σ : Type} (bus : SpiBus σ) (st : MCPState σ) (cs : List Char) :
    MCPState σ × List String :=
  if 9 ≤ cs.length then
    ({ st with spi := (mRun bus st.spi (parseAddr cs)
          (if 64 < parseByteAt7 cs then 64 else parseByteAt7 cs)).1 },
     [("OK M ") ++ hex4 (parseAddr cs) ++ (":") ++
        (mRun bus st.spi (parseAddr cs)
          (if 64 < parseByteAt7 cs then 64 else parseByteAt7 cs)).2])
  else (st, [("ERR: M AAAA NN")])

/-- The `case 'D'` block of `processCommand`. -/
def dCase {σ : Type} (bus : SpiBus σ) (st : MCPState σ) :
    MCPState σ × List String :=
  ({ st with spi := (wishboneRead bus
        (dumpLoop bus st.spi [0x8100, 0x8101, 0x8102, 0x8103]).1 0x8010).1 },
   [("=== DEBUG DUMP ==="), ("JTAG Bridge: ") ++ enStr st.jtagEnabled,
    ("--- RGB LED (0x8100-0x8103) ---")] ++
   (dumpLoop bus st.spi [0x8100, 0x8101, 0x8102, 0x8103]).2 ++
   [("--- Video Mode ---"),
    ("  Video mode: ") ++ toString ((wishboneRead bus
        (dumpLoop bus st.spi [0x8100, 0x8101, 0x8102, 0x8103]).1 0x8010).2 &&& 0x07),
    ("=== END DUMP ===")])

/-- The `case 'J'` block of `processCommand`. -/
def jCase {σ : Type} (st : MCPState σ) (cs : List Char) :
    MCPState σ × List String :=
  if 3 ≤ cs.length then
    if cs.getD 2 ' ' = '1' then enableJTAG st
    else if cs.getD 2 ' ' = '0' then disableJTAG st
    else (st, [("JTAG: ") ++ enStr st.jtagEnabled])
  else (st, [("JTAG: ") ++ enStr st.jtagEnabled])

/-- The `case 'P'` block of `processCommand`: explicit argument forces
pause/resume, no argument toggles. -/
def pCase {σ : Type} (st : MCPState σ) (cs : List Char) :
    MCPState σ × List String :=
  if 3 ≤ cs.length then
    if cs.getD 2 ' ' = '1' then pause st
    else if cs.getD 2 ' ' = '0' then resume st
    else (st, [("Sketch: ") ++ pausedStr st.paused])
  else
    if st.paused then resume st else pause st

/-- The `case 'C'` block of `processCommand`. -/
def cCase {σ : Type} (st : MCPState σ) : MCPState σ × List String :=
  if st.atBreakpoint then ({ st with atBreakpoint := false }, [])
  else if st.paused then resume st
  else (st, [("OK: Not at breakpoint")])

/-- The `case 'B'` block of `processCommand`: note the inner `if` has no
final `else`, so `B` with an unrecognized argument prints nothing. -/
def bCase {σ : Type} (st : MCPState σ) (cs : List Char) :
    MCPState σ × List String :=
  if 3 ≤ cs.length then
    if cs.getD 2 ' ' = '1' then
      ({ st with breakpointsEnabled := true }, [("[MCP] Breakpoints ENABLED")])
    else if cs.getD 2 ' ' = '0' then
      ({ st with breakpointsEnabled := false, atBreakpoint := false },
       [("[MCP] Breakpoints DISABLED - all breakpoints will be skipped")])
    else (st, [])
  else (st, [("Breakpoints: ") ++ enStr st.breakpointsEnabled ++
    (" (hit ") ++ toString st.breakpointCount ++ (" times)")])

/-- The `case 'H'` block of `processCommand`. -/
def hCase {σ : Type} (st : MCPState σ) : MCPState σ × List String :=
  (st, [("=== PAPILIO MCP DEBUG ==="),
    ("W AAAA DD  - Write DD to addr AAAA"),
    ("R AAAA     - Read from addr AAAA"),
    ("M AAAA NN  - Read NN bytes from AAAA"),
    ("D          - Dump debug registers"),
    ("J [1|0]    - Enable/disable JTAG"),
    ("P [1|0]    - Pause/resume sketch"),
    ("C          - Continue from breakpoint"),
    ("B [1|0]    - Enable/disable breakpoints"),
    ("H          - This help"),
    ("Status: Sketch ") ++ pausedStr st.paused ++ (", JTAG ") ++
      enStr st.jtagEnabled ++ (", Breakpoints ") ++ enStr st.breakpointsEnabled])

/-- `processCommand` after the initial `cmd.trim()`: empty line is a
no-op, otherwise echo the line and switch on its first character,
falling through to the generic error for unknown verbs.  Serial output
is collected in order as a list of printed lines. -/
def dispatch {σ : Type} (bus : SpiBus σ) (st : MCPState σ) (cs : List Char) :
    MCPState σ × List String :=
  if cs.length = 0 then (st, [])
  else
    let c := cs.headD ' '
    let r :=
      if c = 'W' ∨ c = 'w' then wCase bus st cs
      else if c = 'R' ∨ c = 'r' then rCase bus st cs
      else if c = 'M' ∨ c = 'm' then mCase bus st cs
      else if c = 'D' ∨ c = 'd' then dCase bus st
      else if c = 'J' ∨ c = 'j' then jCase st cs
      else if c = 'P' ∨ c = 'p' then pCase st cs
      else if c = 'C' ∨ c = 'c' then cCase st
      else if c = 'B' ∨ c = 'b' then bCase st cs
      else if c = 'H' ∨ c = 'h' ∨ c = '?' then hCase st
      else (st, [("ERR: Unknown command (H for help)")])
    (r.1, echoOf cs :: r.2)

/-- `processCommand(String cmd)`: `cmd.trim()` then dispatch. -/
def processCommand {σ : Type} (bus : SpiBus σ) (st : MCPState σ)
    (cmd : List Char) : MCPState σ × List String :=
  dispatch bus st (trimChars cmd)

/-- One iteration of the `update()` loop body for one received byte. -/
def updateByte {σ : Type} (bus : SpiBus σ) (acc : MCPState σ × List String)
    (c : Char) : MCPState σ × List String :=
  let st := acc.1
  if c = '\n' ∨ c = '\r' then
    if 0 < st.cmdBuffer.length then
      ({ (processCommand bus st st.cmdBuffer).1 with cmdBuffer := [] },
       acc.2 ++ (processCommand bus st st.cmdBuffer).2)
    else acc
  else if st.cmdBuffer.length < 256 then
    ({ st with cmdBuffer := st.cmdBuffer ++ [c] }, acc.2)
  else acc

/-- `update()`: drain all currently-available serial bytes, given here
as an explicit list. -/
def update {σ : Type} (bus : SpiBus σ) (st : MCPState σ) (input : List Char) :
    MCPState σ × List String :=
  input.foldl (updateByte bus) (st, [])

/-- The breakpoint banner `"[MCP] BREAKPOINT #%d ['%s'] - Type C to continue"`. -/
def breakpointMsg (count : Nat) : Option String → String
  | some name =>
    ("[MCP] BREAKPOINT #") ++ toString count ++ (" \x27") ++ name ++
      ("\x27 - Type C to continue")
  | none => ("[MCP] BREAKPOINT #") ++ toString count ++ (" - Type C to continue")

/-- The post-loop `"Continuing from breakpoint"` message. -/
def breakpointContinueMsg : Option String → String
  | some name => ("[MCP] Continuing from breakpoint \x27") ++ name ++ ("\x27")
  | none => ("[MCP] Continuing from breakpoint")

/-- The blocking loop `while (_atBreakpoint && _breakpointsEnabled) {
update(); delay(10); }`, run over a finite schedule of serial input
chunks (one chunk of available bytes per iteration).  `none` means the
schedule was exhausted with the loop still spinning, i.e. the call has
not returned. -/
def bpLoop {σ : Type} (bus : SpiBus σ) :
    List (List Char) → MCPState σ → List String → Option (MCPState σ × List String)
  | [], st, out =>
    if st.atBreakpoint && st.breakpointsEnabled then none else some (st, out)
  | chunk :: rest, st, out =>
    if st.atBreakpoint && st.breakpointsEnabled then
      bpLoop bus rest (update bus st chunk).1 (out ++ (update bus st chunk).2)
    else some (st, out)

/-- `breakpoint(name)`: no-op when breakpoints are disabled; otherwise
increment the `uint16_t` hit counter, set `_atBreakpoint` and `_paused`,
print the banner, spin in `bpLoop`, then clear `_paused` and print the
continuation message.  `none` means the call is still blocked after the
given input schedule. -/
def breakpoint {σ : Type} (bus : SpiBus σ) (st : MCPState σ)
    (name : Option String) (chunks : List (List Char)) :
    Option (MCPState σ × List String) :=
  if st.breakpointsEnabled = false then some (st, [])
  else
    match bpLoop bus chunks
        { st with breakpointCount := (st.breakpointCount + 1) % 65536,
                  atBreakpoint := true, paused := true }
        [breakpointMsg ((st.breakpointCount + 1) % 65536) name] with
    | none => none
    | some (st2, out) =>
      some ({ st2 with paused := false }, out ++ [breakpointContinueMsg name])

/-- An SPI endpoint that records every transaction: `done` holds the
byte lists of completed (deselected) transactions, `cur` the bytes of
the open one.  Every response byte is 0. -/
structure Recorder where
  done : List (List Nat)
  cur : List Nat
  deriving Repr, DecidableEq

/-- The recording endpoint as an `SpiBus`. -/
def recBus : SpiBus Recorder :=
  { transfer := fun r x => ({ r with cur := r.cur ++ [x] }, 0)
    deselect := fun r => { done := r.done ++ [r.cur], cur := [] } }

/-- A fresh recorder. -/
def recInit : Recorder := { done := [], cur := [] }

/-- A mock Wishbone slave: holds a byte memory, decodes the 4-byte
transaction format (opcode, address high, address low, data/dummy), and
answers a read's dummy byte with the addressed memory byte. -/
structure MockBus where
  mem : Nat → Nat
  rx : List Nat

/-- One SPI byte exchanged with the mock slave. -/
def mockTransfer (b : MockBus) (x : Nat) : MockBus × Nat :=
  match b.rx with
  | [op, hi, lo] =>
    if op = 1 then
      ({ mem := fun a => if a = 256 * hi + lo then x else b.mem a,
         rx := [op, hi, lo, x] }, 0)
    else ({ b with rx := [op, hi, lo, x] }, b.mem (256 * hi + lo))
  | _ => ({ b with rx := b.rx ++ [x] }, 0)

/-- The mock slave as an `SpiBus`; deselecting ends the transaction. -/
def mockBus : SpiBus MockBus :=
  { transfer := mockTransfer, deselect := fun b => { b with rx := [] } }

/-- A bus endpoint with no observable behaviour, for exercising the
state machine alone. -/
def nullBus : SpiBus Unit := { transfer := fun s _ => (s, 0), deselect := id }

/-- `initState` at the trivial endpoint type. -/
def initStateU : MCPState Unit := initState

/-- A serial chunk containing a single `C` command line. -/
def bpChunkC : List Char := ['C', '\n']

/-- The state after `n` completed breakpoint calls from `initState`,
each released by a `C` command. -/
def hitN : Nat → MCPState Unit
  | 0 => initStateU
  | n + 1 =>
    match breakpoint nullBus (hitN n) none [bpChunkC] with
    | some (s, _) => s
    | none => hitN n

/-- A state in which a `breakpoint` call is blocking: `atBreakpoint`,
`breakpointsEnabled` and `paused` all hold. -/
def stBlocked : MCPState Unit :=
  { spi := none
    cmdBuffer := []
    jtagEnabled := false
    paused := true
    breakpointsEnabled := true
    atBreakpoint := true
    breakpointCount := 0 }

/-- An initial state wired to the recording endpoint. -/
def crState : MCPState Recorder :=
  { spi := some recInit
    cmdBuffer := []
    jtagEnabled := false
    paused := false
    breakpointsEnabled := true
    atBreakpoint := false
    breakpointCount := 0 }

/-- The command line `W GGGG GG`: a syntactically well-shaped `W` line
whose hex fields contain no hex digits. -/
def cmdWGarbage : List Char := ['W', ' ', 'G', 'G', 'G', 'G', ' ', 'G', 'G']

/-- States reachable from the initial state by the operations the spec
names: `begin` (installing an endpoint), `update`/`processCommand`,
`pause`, `resume`, `breakpoint` — both its non-blocking entry
(`step_bpEntry`, the state the blocking loop spins in) and a completed
call (`step_breakpoint`) — `enableBreakpoints` and
`disableBreakpoints`. -/
inductive Reachable {σ : Type} (bus : SpiBus σ) : MCPState σ → Prop where
  | init : Reachable bus initState
  | step_begin {s : MCPState σ} (d : σ) :
      Reachable bus s → Reachable bus { s with spi := some d }
  | step_update {s : MCPState σ} (input : List Char) :
      Reachable bus s → Reachable bus (update bus s input).1
  | step_bpEntry {s : MCPState σ} :
      Reachable bus s → s.breakpointsEnabled = true →
      Reachable bus { s with breakpointCount := (s.breakpointCount + 1) % 65536,
                             atBreakpoint := true, paused := true }
  | step_process {s : MCPState σ} (cmd : List Char) :
      Reachable bus s → Reachable bus (processCommand bus s cmd).1
  | step_pause {s : MCPState σ} :
      Reachable bus s → Reachable bus (pause s).1
  | step_resume {s : MCPState σ} :
      Reachable bus s → Reachable bus (resume s).1
  | step_breakpoint {s s' : MCPState σ} (name : Option String)
      (chunks : List (List Char)) (out : List String) :
      Reachable bus s → breakpoint bus s name chunks = some (s', out) →
      Reachable bus s'
  | step_enable {s : MCPState σ} :
      Reachable bus s → Reachable bus (enableBreakpoints s)
  | step_disable {s : MCPState σ} :
      Reachable bus s → Reachable bus (disableBreakpoints s)

/-! ### Preservation lemmas for the individual command cases -/

theorem wCase_pres {σ : Type} (bus : SpiBus σ) (st : MCPState σ) (cs : List Char) :
    (wCase bus st cs).1.cmdBuffer = st.cmdBuffer ∧
      (wCase bus st cs).1.breakpointCount = st.breakpointCount ∧
      (wCase bus st cs).1.paused = st.paused ∧
      (wCase bus st cs).1.breakpointsEnabled = st.breakpointsEnabled ∧
      (wCase bus st cs).1.atBreakpoint = st.atBreakpoint := by
  unfold wCase; split <;> exact ⟨rfl, rfl, rfl, rfl, rfl⟩

theorem rCase_pres {σ : Type} (bus : SpiBus σ) (st : MCPState σ) (cs : List Char) :
    (rCase bus st cs).1.cmdBuffer = st.cmdBuffer ∧
      (rCase bus st cs).1.breakpointCount = st.breakpointCount ∧
      (rCase bus st cs).1.paused = st.paused ∧
      (rCase bus st cs).1.breakpointsEnabled = st.breakpointsEnabled ∧
      (rCase bus st cs).1.atBreakpoint = st.atBreakpoint := by
  unfold rCase; split <;> exact ⟨rfl, rfl, rfl, rfl, rfl⟩

theorem mCase_pres {σ : Type} (bus : SpiBus σ) (st : MCPState σ) (cs : List Char) :
    (mCase bus st cs).1.cmdBuffer = st.cmdBuffer ∧
      (mCase bus st cs).1.breakpointCount = st.breakpointCount ∧
      (mCase bus st cs).1.paused = st.paused ∧
      (mCase bus st cs).1.breakpointsEnabled = st.breakpointsEnabled ∧
      (mCase bus st cs).1.atBreakpoint = st.atBreakpoint := by
  unfold mCase; split <;> exact ⟨rfl, rfl, rfl, rfl, rfl⟩

theorem dCase_pres {σ : Type} (bus : SpiBus σ) (st : MCPState σ) :
    (dCase bus st).1.cmdBuffer = st.cmdBuffer ∧
      (dCase bus st).1.breakpointCount = st.breakpointCount ∧
      (dCase bus st).1.paused = st.paused ∧
      (dCase bus st).1.breakpointsEnabled = st.breakpointsEnabled ∧
      (dCase bus st).1.atBreakpoint = st.atBreakpoint :=
  ⟨rfl, rfl, rfl, rfl, rfl⟩

theorem jCase_pres {σ : Type} (st : MCPState σ) (cs : List Char) :
    (jCase st cs).1.cmdBuffer = st.cmdBuffer ∧
      (jCase st cs).1.breakpointCount = st.breakpointCount ∧
      (jCase st cs).1.paused = st.paused ∧
      (jCase st cs).1.breakpointsEnabled = st.breakpointsEnabled ∧
      (jCase st cs).1.atBreakpoint = st.atBreakpoint := by
  unfold jCase enableJTAG disableJTAG
  repeat' (first | exact ⟨rfl, rfl, rfl, rfl, rfl⟩ | split)

theorem hCase_pres {σ : Type} (st : MCPState σ) :
    (hCase st).1.cmdBuffer = st.cmdBuffer ∧
      (hCase st).1.breakpointCount = st.breakpointCount ∧
      (hCase st).1.paused = st.paused ∧
      (hCase st).1.breakpointsEnabled = st.breakpointsEnabled ∧
      (hCase st).1.atBreakpoint = st.atBreakpoint :=
  ⟨rfl, rfl, rfl, rfl, rfl⟩

theorem pCase_pres {σ : Type} (st : MCPState σ) (cs : List Char) :
    (pCase st cs).1.cmdBuffer = st.cmdBuffer ∧
      (pCase st cs).1.breakpointCount = st.breakpointCount ∧
      (pCase st cs).1.breakpointsEnabled = st.breakpointsEnabled := by
  unfold pCase pause resume
  repeat' (first | exact ⟨rfl, rfl, rfl⟩ | split)

theorem cCase_pres {σ : Type} (st : MCPState σ) :
    (cCase st).1.cmdBuffer = st.cmdBuffer ∧
      (cCase st).1.breakpointCount = st.breakpointCount ∧
      (cCase st).1.breakpointsEnabled = st.breakpointsEnabled := by
  unfold cCase resume
  repeat' (first | exact ⟨rfl, rfl, rfl⟩ | split)

theorem bCase_pres {σ : Type} (st : MCPState σ) (cs : List Char) :
    (bCase st cs).1.cmdBuffer = st.cmdBuffer ∧
      (bCase st cs).1.breakpointCount = st.breakpointCount ∧
      (bCase st cs).1.paused = st.paused := by
  unfold bCase
  repeat' (first | exact ⟨rfl, rfl, rfl⟩ | split)

/-- `pCase` preserves the implication `¬enabled → ¬atBreakpoint`. -/
theorem pCase_J {σ : Type} (st : MCPState σ) (cs : List Char)
    (h : st.breakpointsEnabled = false → st.atBreakpoint = false) :
    (pCase st cs).1.breakpointsEnabled = false → (pCase st cs).1.atBreakpoint = false := by
  unfold pCase pause resume
  repeat' split
  all_goals intro h2
  all_goals first | rfl | exact h h2 | simp at h2

theorem cCase_J {σ : Type} (st : MCPState σ)
    (h : st.breakpointsEnabled = false → st.atBreakpoint = false) :
    (cCase st).1.breakpointsEnabled = false → (cCase st).1.atBreakpoint = false := by
  unfold cCase resume
  repeat' split
  all_goals intro h2
  all_goals first | rfl | exact h h2 | simp at h2

theorem bCase_J {σ : Type} (st : MCPState σ) (cs : List Char)
    (h : st.breakpointsEnabled = false → st.atBreakpoint = false) :
    (bCase st cs).1.breakpointsEnabled = false → (bCase st cs).1.atBreakpoint = false := by
  unfold bCase
  repeat' split
  all_goals intro h2
  all_goals first | rfl | exact h h2 | simp at h2

/-- `pCase` preserves the implication `atBreakpoint → paused`. -/
theorem pCase_Inv {σ : Type} (st : MCPState σ) (cs : List Char)
    (h : st.atBreakpoint = true → st.paused = true) :
    (pCase st cs).1.atBreakpoint = true → (pCase st cs).1.paused = true := by
  unfold pCase pause resume
  repeat' split
  all_goals intro h2
  all_goals first | rfl | exact h h2 | simp at h2

theorem cCase_Inv {σ : Type} (st : MCPState σ)
    (h : st.atBreakpoint = true → st.paused = true) :
    (cCase st).1.atBreakpoint = true → (cCase st).1.paused = true := by
  unfold cCase resume
  repeat' split
  all_goals intro h2
  all_goals first | rfl | exact h h2 | simp at h2

theorem bCase_Inv {σ : Type} (st : MCPState σ) (cs : List Char)
    (h : st.atBreakpoint = true → st.paused = true) :
    (bCase st cs).1.atBreakpoint = true → (bCase st cs).1.paused = true := by
  unfold bCase
  repeat' split
  all_goals intro h2
  all_goals first | rfl | exact h h2 | simp at h2

theorem wCase_J {σ : Type} (bus : SpiBus σ) (st : MCPState σ) (cs : List Char)
    (h : st.breakpointsEnabled = false → st.atBreakpoint = false) :
    (wCase bus st cs).1.breakpointsEnabled = false → (wCase bus st cs).1.atBreakpoint = false := by
  unfold wCase
  repeat' split
  all_goals intro h2
  all_goals first | rfl | exact h h2 | simp at h2

theorem rCase_J {σ : Type} (bus : SpiBus σ) (st : MCPState σ) (cs : List Char)
    (h : st.breakpointsEnabled = false → st.atBreakpoint = false) :
    (rCase bus st cs).1.breakpointsEnabled = false → (rCase bus st cs).1.atBreakpoint = false := by
  unfold rCase
  repeat' split
  all_goals intro h2
  all_goals first | rfl | exact h h2 | simp at h2

theorem mCase_J {σ : Type} (bus : SpiBus σ) (st : MCPState σ) (cs : List Char)
    (h : st.breakpointsEnabled = false → st.atBreakpoint = false) :
    (mCase bus st cs).1.breakpointsEnabled = false → (mCase bus st cs).1.atBreakpoint = false := by
  unfold mCase
  repeat' split
  all_goals intro h2
  all_goals first | rfl | exact h h2 | simp at h2

theorem jCase_J {σ : Type} (st : MCPState σ) (cs : List Char)
    (h : st.breakpointsEnabled = false → st.atBreakpoint = false) :
    (jCase st cs).1.breakpointsEnabled = false → (jCase st cs).1.atBreakpoint = false := by
  unfold jCase enableJTAG disableJTAG
  repeat' split
  all_goals intro h2
  all_goals first | rfl | exact h h2 | simp at h2

theorem wCase_Inv {σ : Type} (bus : SpiBus σ) (st : MCPState σ) (cs : List Char)
    (h : st.atBreakpoint = true → st.paused = true) :
    (wCase bus st cs).1.atBreakpoint = true → (wCase bus st cs).1.paused = true := by
  unfold wCase
  repeat' split
  all_goals intro h2
  all_goals first | rfl | exact h h2 | simp at h2

theorem rCase_Inv {σ : Type} (bus : SpiBus σ) (st : MCPState σ) (cs : List Char)
    (h : st.atBreakpoint = true → st.paused = true) :
    (rCase bus st cs).1.atBreakpoint = true → (rCase bus st cs).1.paused = true := by
  unfold rCase
  repeat' split
  all_goals intro h2
  all_goals first | rfl | exact h h2 | simp at h2

theorem mCase_Inv {σ : Type} (bus : SpiBus σ) (st : MCPState σ) (cs : List Char)
    (h : st.atBreakpoint = true → st.paused = true) :
    (mCase bus st cs).1.atBreakpoint = true → (mCase bus st cs).1.paused = true := by
  unfold mCase
  repeat' split
  all_goals intro h2
  all_goals first | rfl | exact h h2 | simp at h2

theorem jCase_Inv {σ : Type} (st : MCPState σ) (cs : List Char)
    (h : st.atBreakpoint = true → st.paused = true) :
    (jCase st cs).1.atBreakpoint = true → (jCase st cs).1.paused = true := by
  unfold jCase enableJTAG disableJTAG
  repeat' split
  all_goals intro h2
  all_goals first | rfl | exact h h2 | simp at h2

/-! ### Master preservation lemmas for `dispatch` -/

/-- `dispatch` never changes the command buffer or the hit counter. -/
theorem dispatch_pres {σ : Type} (bus : SpiBus σ) (st : MCPState σ) (cs : List Char) :
    (dispatch bus st cs).1.cmdBuffer = st.cmdBuffer ∧
      (dispatch bus st cs).1.breakpointCount = st.breakpointCount := by
  unfold dispatch
  dsimp only
  repeat' split
  all_goals first
    | exact ⟨rfl, rfl⟩
    | exact ⟨(wCase_pres bus st cs).1, (wCase_pres bus st cs).2.1⟩
    | exact ⟨(rCase_pres bus st cs).1, (rCase_pres bus st cs).2.1⟩
    | exact ⟨(mCase_pres bus st cs).1, (mCase_pres bus st cs).2.1⟩
    | exact ⟨(dCase_pres bus st).1, (dCase_pres bus st).2.1⟩
    | exact ⟨(jCase_pres st cs).1, (jCase_pres st cs).2.1⟩
    | exact ⟨(pCase_pres st cs).1, (pCase_pres st cs).2.1⟩
    | exact ⟨(cCase_pres st).1, (cCase_pres st).2.1⟩
    | exact ⟨(bCase_pres st cs).1, (bCase_pres st cs).2.1⟩
    | exact ⟨(hCase_pres st).1, (hCase_pres st).2.1⟩

/-- `dispatch` preserves the implication `¬enabled → ¬atBreakpoint`
(breakpoints are only ever disabled by `B 0`, which also clears
`atBreakpoint`). -/
theorem dispatch_J {σ : Type} (bus : SpiBus σ) (st : MCPState σ) (cs : List Char)
    (h : st.breakpointsEnabled = false → st.atBreakpoint = false) :
    (dispatch bus st cs).1.breakpointsEnabled = false →
      (dispatch bus st cs).1.atBreakpoint = false := by
  unfold dispatch
  dsimp only
  repeat' split
  all_goals first
    | exact h
    | exact wCase_J bus st cs h
    | exact rCase_J bus st cs h
    | exact mCase_J bus st cs h
    | exact jCase_J st cs h
    | exact pCase_J st cs h
    | exact cCase_J st h
    | exact bCase_J st cs h

/-- `dispatch` preserves the invariant `atBreakpoint → paused`. -/
theorem dispatch_Inv {σ : Type} (bus : SpiBus σ) (st : MCPState σ) (cs : List Char)
    (h : st.atBreakpoint = true → st.paused = true) :
    (dispatch bus st cs).1.atBreakpoint = true → (dispatch bus st cs).1.paused = true := by
  unfold dispatch
  dsimp only
  repeat' split
  all_goals first
    | exact h
    | exact wCase_Inv bus st cs h
    | exact rCase_Inv bus st cs h
    | exact mCase_Inv bus st cs h
    | exact jCase_Inv st cs h
    | exact pCase_Inv st cs h
    | exact cCase_Inv st h
    | exact bCase_Inv st cs h

/-! ### Release characterization for a blocking breakpoint state -/

theorem pCase_stay {σ : Type} (st : MCPState σ) (cs : List Char)
    (hA : st.atBreakpoint = true) (hE : st.breakpointsEnabled = true) (hP : st.paused = true)
    (hHead : cs.headD ' ' = 'P' ∨ cs.headD ' ' = 'p')
    (hRel : releaseLine cs = false) :
    (pCase st cs).1.atBreakpoint = true ∧ (pCase st cs).1.breakpointsEnabled = true ∧
      (pCase st cs).1.paused = true := by
  have h' : 3 ≤ cs.length ∧ ¬cs.getD 2 ' ' = '0' := by
    rcases hHead with h | h <;>
      (unfold releaseLine at hRel; rw [h] at hRel; simpa using hRel)
  unfold pCase
  rw [if_pos h'.1]
  by_cases h1 : cs.getD 2 ' ' = '1'
  · rw [if_pos h1]; exact ⟨hA, hE, rfl⟩
  · rw [if_neg h1, if_neg h'.2]; exact ⟨hA, hE, hP⟩

theorem bCase_stay {σ : Type} (st : MCPState σ) (cs : List Char)
    (hA : st.atBreakpoint = true) (hE : st.breakpointsEnabled = true) (hP : st.paused = true)
    (hHead : cs.headD ' ' = 'B' ∨ cs.headD ' ' = 'b')
    (hRel : releaseLine cs = false) :
    (bCase st cs).1.atBreakpoint = true ∧ (bCase st cs).1.breakpointsEnabled = true ∧
      (bCase st cs).1.paused = true := by
  have h' : ¬3 ≤ cs.length ∨ ¬cs.getD 2 ' ' = '0' := by
    rcases hHead with h | h <;>
      (unfold releaseLine at hRel; rw [h] at hRel; simp at hRel)
    all_goals
      by_cases hL : 3 ≤ cs.length
      · right; simpa [hL] using hRel
      · left; exact hL
  unfold bCase
  by_cases hL : 3 ≤ cs.length
  · rw [if_pos hL]
    have hg : ¬cs.getD 2 ' ' = '0' := by
      rcases h' with h | h
      · exact absurd hL h
      · exact h
    by_cases h1 : cs.getD 2 ' ' = '1'
    · rw [if_pos h1]; exact ⟨hA, rfl, hP⟩
    · rw [if_neg h1, if_neg hg]; exact ⟨hA, hE, hP⟩
  · rw [if_neg hL]; exact ⟨hA, hE, hP⟩

theorem pCase_rel {σ : Type} (st : MCPState σ) (cs : List Char)
    (hP : st.paused = true)
    (hHead : cs.headD ' ' = 'P' ∨ cs.headD ' ' = 'p')
    (hRel : releaseLine cs = true) :
    ((pCase st cs).1.atBreakpoint && (pCase st cs).1.breakpointsEnabled) = false := by
  have h' : cs.length < 3 ∨ cs.getD 2 ' ' = '0' := by
    rcases hHead with h | h <;>
      (unfold releaseLine at hRel; rw [h] at hRel; simpa using hRel)
  unfold pCase
  rcases h' with hL | hg
  · rw [if_neg (Nat.not_le.mpr hL), if_pos hP]; unfold resume; simp
  · by_cases hL : 3 ≤ cs.length
    · rw [if_pos hL]
      have h1 : ¬cs.getD 2 ' ' = '1' := by rw [hg]; decide
      rw [if_neg h1, if_pos hg]; unfold resume; simp
    · rw [if_neg hL, if_pos hP]; unfold resume; simp

theorem cCase_rel {σ : Type} (st : MCPState σ) (hA : st.atBreakpoint = true) :
    ((cCase st).1.atBreakpoint && (cCase st).1.breakpointsEnabled) = false := by
  unfold cCase
  rw [if_pos hA]
  simp

theorem bCase_rel {σ : Type} (st : MCPState σ) (cs : List Char)
    (hHead : cs.headD ' ' = 'B' ∨ cs.headD ' ' = 'b')
    (hRel : releaseLine cs = true) :
    ((bCase st cs).1.atBreakpoint && (bCase st cs).1.breakpointsEnabled) = false := by
  have h' : 3 ≤ cs.length ∧ cs.getD 2 ' ' = '0' := by
    rcases hHead with h | h <;>
      (unfold releaseLine at hRel; rw [h] at hRel; simpa using hRel)
  unfold bCase
  rw [if_pos h'.1]
  have h1 : ¬cs.getD 2 ' ' = '1' := by rw [h'.2]; decide
  rw [if_neg h1, if_pos h'.2]
  simp

/-- From a blocking state, a dispatched line that is not a release line
leaves the state blocking (and still paused). -/
theorem dispatch_stay {σ : Type} (bus : SpiBus σ) (st : MCPState σ) (cs : List Char)
    (hA : st.atBreakpoint = true) (hE : st.breakpointsEnabled = true) (hP : st.paused = true)
    (hRel : releaseLine cs = false) :
    (dispatch bus st cs).1.atBreakpoint = true ∧
      (dispatch bus st cs).1.breakpointsEnabled = true ∧
      (dispatch bus st cs).1.paused = true := by
  unfold dispatch
  dsimp only
  repeat' split
  all_goals rename_i hcond
  all_goals first
    | exact ⟨hA, hE, hP⟩
    | exact ⟨((wCase_pres bus st cs).2.2.2.2).trans hA,
        ((wCase_pres bus st cs).2.2.2.1).trans hE, ((wCase_pres bus st cs).2.2.1).trans hP⟩
    | exact ⟨((rCase_pres bus st cs).2.2.2.2).trans hA,
        ((rCase_pres bus st cs).2.2.2.1).trans hE, ((rCase_pres bus st cs).2.2.1).trans hP⟩
    | exact ⟨((mCase_pres bus st cs).2.2.2.2).trans hA,
        ((mCase_pres bus st cs).2.2.2.1).trans hE, ((mCase_pres bus st cs).2.2.1).trans hP⟩
    | exact ⟨((dCase_pres bus st).2.2.2.2).trans hA,
        ((dCase_pres bus st).2.2.2.1).trans hE, ((dCase_pres bus st).2.2.1).trans hP⟩
    | exact ⟨((jCase_pres st cs).2.2.2.2).trans hA,
        ((jCase_pres st cs).2.2.2.1).trans hE, ((jCase_pres st cs).2.2.1).trans hP⟩
    | exact pCase_stay st cs hA hE hP hcond hRel
    | exact bCase_stay st cs hA hE hP hcond hRel
    | (rcases hcond with h | h <;> (unfold releaseLine at hRel; rw [h] at hRel; simp at hRel))

/-- From a blocking state, a dispatched release line clears the blocking
condition `atBreakpoint && breakpointsEnabled`. -/
theorem dispatch_release {σ : Type} (bus : SpiBus σ) (st : MCPState σ) (cs : List Char)
    (hA : st.atBreakpoint = true) (hP : st.paused = true)
    (hRel : releaseLine cs = true) :
    ((dispatch bus st cs).1.atBreakpoint && (dispatch bus st cs).1.breakpointsEnabled) = false := by
  unfold dispatch
  dsimp only
  repeat' split
  all_goals rename_i hcond
  all_goals first
    | exact pCase_rel st cs hP hcond hRel
    | exact cCase_rel st hA
    | exact bCase_rel st cs hcond hRel
    | (rw [List.length_eq_zero] at hcond; subst hcond; simp [releaseLine] at hRel)
    | (rcases hcond with h | h <;> (unfold releaseLine at hRel; rw [h] at hRel; simp at hRel))
    | (rcases hcond with h | h | h <;> (unfold releaseLine at hRel; rw [h] at hRel; simp at hRel))
    | (unfold releaseLine at hRel; simp_all)

/-! ### `processCommand`, `update` and `bpLoop` preservation -/

theorem processCommand_pres {σ : Type} (bus : SpiBus σ) (st : MCPState σ) (cmd : List Char) :
    (processCommand bus st cmd).1.cmdBuffer = st.cmdBuffer ∧
      (processCommand bus st cmd).1.breakpointCount = st.breakpointCount :=
  dispatch_pres bus st (trimChars cmd)

theorem processCommand_J {σ : Type} (bus : SpiBus σ) (st : MCPState σ) (cmd : List Char)
    (h : st.breakpointsEnabled = false → st.atBreakpoint = false) :
    (processCommand bus st cmd).1.breakpointsEnabled = false →
      (processCommand bus st cmd).1.atBreakpoint = false :=
  dispatch_J bus st (trimChars cmd) h

theorem processCommand_Inv {σ : Type} (bus : SpiBus σ) (st : MCPState σ) (cmd : List Char)
    (h : st.atBreakpoint = true → st.paused = true) :
    (processCommand bus st cmd).1.atBreakpoint = true →
      (processCommand bus st cmd).1.paused = true :=
  dispatch_Inv bus st (trimChars cmd) h

theorem updateByte_count {σ : Type} (bus : SpiBus σ) (acc : MCPState σ × List String)
    (c : Char) : (updateByte bus acc c).1.breakpointCount = acc.1.breakpointCount := by
  unfold updateByte
  dsimp only
  repeat' split
  all_goals first | rfl | exact (processCommand_pres bus acc.1 acc.1.cmdBuffer).2

theorem updateByte_J {σ : Type} (bus : SpiBus σ) (acc : MCPState σ × List String) (c : Char)
    (h : acc.1.breakpointsEnabled = false → acc.1.atBreakpoint = false) :
    (updateByte bus acc c).1.breakpointsEnabled = false →
      (updateByte bus acc c).1.atBreakpoint = false := by
  unfold updateByte
  dsimp only
  repeat' split
  all_goals first | exact h | exact processCommand_J bus acc.1 acc.1.cmdBuffer h

theorem updateByte_Inv {σ : Type} (bus : SpiBus σ) (acc : MCPState σ × List String) (c : Char)
    (h : acc.1.atBreakpoint = true → acc.1.paused = true) :
    (updateByte bus acc c).1.atBreakpoint = true → (updateByte bus acc c).1.paused = true := by
  unfold updateByte
  dsimp only
  repeat' split
  all_goals first | exact h | exact processCommand_Inv bus acc.1 acc.1.cmdBuffer h

theorem updateByte_len {σ : Type} (bus : SpiBus σ) (acc : MCPState σ × List String) (c : Char)
    (h : acc.1.cmdBuffer.length ≤ 256) :
    (updateByte bus acc c).1.cmdBuffer.length ≤ 256 := by
  unfold updateByte
  dsimp only
  repeat' split
  all_goals simp_all
  omega

theorem update_count {σ : Type} (bus : SpiBus σ) (input : List Char) :
    ∀ acc : MCPState σ × List String,
      (input.foldl (updateByte bus) acc).1.breakpointCount = acc.1.breakpointCount := by
  induction input with
  | nil => intro acc; rfl
  | cons c rest ih =>
    intro acc
    rw [List.foldl_cons, ih (updateByte bus acc c), updateByte_count bus acc c]

theorem update_J {σ : Type} (bus : SpiBus σ) (input : List Char) :
    ∀ acc : MCPState σ × List String,
      (acc.1.breakpointsEnabled = false → acc.1.atBreakpoint = false) →
      (input.foldl (updateByte bus) acc).1.breakpointsEnabled = false →
        (input.foldl (updateByte bus) acc).1.atBreakpoint = false := by
  induction input with
  | nil => intro acc h; exact h
  | cons c rest ih =>
    intro acc h
    rw [List.foldl_cons]
    exact ih (updateByte bus acc c) (updateByte_J bus acc c h)

theorem update_Inv {σ : Type} (bus : SpiBus σ) (input : List Char) :
    ∀ acc : MCPState σ × List String,
      (acc.1.atBreakpoint = true → acc.1.paused = true) →
      (input.foldl (updateByte bus) acc).1.atBreakpoint = true →
        (input.foldl (updateByte bus) acc).1.paused = true := by
  induction input with
  | nil => intro acc h; exact h
  | cons c rest ih =>
    intro acc h
    rw [List.foldl_cons]
    exact ih (updateByte bus acc c) (updateByte_Inv bus acc c h)

theorem update_len {σ : Type} (bus : SpiBus σ) (input : List Char) :
    ∀ acc : MCPState σ × List String, acc.1.cmdBuffer.length ≤ 256 →
      (input.foldl (updateByte bus) acc).1.cmdBuffer.length ≤ 256 := by
  induction input with
  | nil => intro acc h; exact h
  | cons c rest ih =>
    intro acc h
    rw [List.foldl_cons]
    exact ih (updateByte bus acc c) (updateByte_len bus acc c h)

theorem bpLoop_some_exit {σ : Type} (bus : SpiBus σ) (chunks : List (List Char)) :
    ∀ st out st' out', bpLoop bus chunks st out = some (st', out') →
      (st'.atBreakpoint && st'.breakpointsEnabled) = false := by
  induction chunks with
  | nil =>
    intro st out st' out' h
    unfold bpLoop at h
    split at h
    · exact absurd h (by simp)
    · rename_i hcond
      obtain ⟨h1, h2⟩ := Prod.mk.injEq .. ▸ (Option.some.injEq .. ▸ h)
      rw [← h1]
      simpa using hcond
  | cons chunk rest ih =>
    intro st out st' out' h
    unfold bpLoop at h
    split at h
    · exact ih _ _ _ _ h
    · rename_i hcond
      obtain ⟨h1, h2⟩ := Prod.mk.injEq .. ▸ (Option.some.injEq .. ▸ h)
      rw [← h1]
      simpa using hcond

theorem bpLoop_some_J {σ : Type} (bus : SpiBus σ) (chunks : List (List Char)) :
    ∀ st out st' out', (st.breakpointsEnabled = false → st.atBreakpoint = false) →
      bpLoop bus chunks st out = some (st', out') →
      (st'.breakpointsEnabled = false → st'.atBreakpoint = false) := by
  induction chunks with
  | nil =>
    intro st out st' out' hJ h
    unfold bpLoop at h
    split at h
    · exact absurd h (by simp)
    · obtain ⟨h1, h2⟩ := Prod.mk.injEq .. ▸ (Option.some.injEq .. ▸ h)
      rw [← h1]; exact hJ
  | cons chunk rest ih =>
    intro st out st' out' hJ h
    unfold bpLoop at h
    split at h
    · exact ih _ _ _ _ (update_J bus chunk (st, []) hJ) h
    · obtain ⟨h1, h2⟩ := Prod.mk.injEq .. ▸ (Option.some.injEq .. ▸ h)
      rw [← h1]; exact hJ

theorem bpLoop_some_count {σ : Type} (bus : SpiBus σ) (chunks : List (List Char)) :
    ∀ st out st' out', bpLoop bus chunks st out = some (st', out') →
      st'.breakpointCount = st.breakpointCount := by
  induction chunks with
  | nil =>
    intro st out st' out' h
    unfold bpLoop at h
    split at h
    · exact absurd h (by simp)
    · obtain ⟨h1, h2⟩ := Prod.mk.injEq .. ▸ (Option.some.injEq .. ▸ h)
      rw [← h1]
  | cons chunk rest ih =>
    intro st out st' out' h
    unfold bpLoop at h
    split at h
    · rw [ih _ _ _ _ h]; exact update_count bus chunk (st, [])
    · obtain ⟨h1, h2⟩ := Prod.mk.injEq .. ▸ (Option.some.injEq .. ▸ h)
      rw [← h1]

/-- When breakpoints are globally disabled, a `breakpoint` call returns
at once, leaving the state untouched. -/
theorem breakpoint_disabled {σ : Type} (bus : SpiBus σ) (st : MCPState σ)
    (name : Option String) (chunks : List (List Char))
    (h : st.breakpointsEnabled = false) :
    breakpoint bus st name chunks = some (st, []) := by
  unfold breakpoint
  rw [if_pos h]

/-- When a `breakpoint` call made with breakpoints enabled returns, the
returned state has `paused` and `atBreakpoint` cleared and the hit
counter incremented once, modulo 2^16. -/
theorem breakpoint_enabled_some {σ : Type} (bus : SpiBus σ) (st : MCPState σ)
    (name : Option String) (chunks : List (List Char)) (s' : MCPState σ) (out : List String)
    (hE : st.breakpointsEnabled = true)
    (h : breakpoint bus st name chunks = some (s', out)) :
    s'.paused = false ∧ s'.atBreakpoint = false ∧
      s'.breakpointCount = (st.breakpointCount + 1) % 65536 := by
  unfold breakpoint at h
  rw [if_neg (by simp [hE])] at h
  split at h
  · exact absurd h (by simp)
  · rename_i st2 out2 heq
    obtain ⟨h1, h2⟩ := Prod.mk.injEq .. ▸ (Option.some.injEq .. ▸ h)
    have hJ2 := bpLoop_some_J bus chunks _ _ _ _ (by intro hc; simp [hE] at hc) heq
    have hX2 := bpLoop_some_exit bus chunks _ _ _ _ heq
    have hC2 := bpLoop_some_count bus chunks _ _ _ _ heq
    have hA2 : st2.atBreakpoint = false := by
      cases he2 : st2.breakpointsEnabled with
      | false => exact hJ2 he2
      | true => rw [he2] at hX2; simpa using hX2
    refine ⟨by rw [← h1], by rw [← h1]; exact hA2, by rw [← h1]; exact hC2⟩

/-! ### Buffering: how `update` assembles command lines -/

/-- Feeding non-terminator bytes accumulates them in the buffer while
capacity remains. -/
theorem foldl_accum {σ : Type} (bus : SpiBus σ) (l : List Char) :
    ∀ (st : MCPState σ) (out : List String),
      (∀ c ∈ l, ¬(c = '\n' ∨ c = '\r')) →
      st.cmdBuffer.length + l.length ≤ 256 →
      l.foldl (updateByte bus) (st, out) = ({ st with cmdBuffer := st.cmdBuffer ++ l }, out) := by
  induction l with
  | nil =>
    intro st out _ _
    simp
  | cons c rest ih =>
    intro st out hnt hlen
    rw [List.foldl_cons]
    have hstep : updateByte bus (st, out) c = ({ st with cmdBuffer := st.cmdBuffer ++ [c] }, out) := by
      unfold updateByte
      dsimp only
      rw [if_neg (hnt c (List.mem_cons_self c rest)),
        if_pos (by simp at hlen; omega)]
    rw [hstep, ih _ out (fun x hx => hnt x (List.mem_cons_of_mem c hx)) (by simp at hlen ⊢; omega)]
    simp

/-- Feeding one complete terminated line into an empty buffer dispatches
exactly that line (after trimming) and clears the buffer. -/
theorem update_line {σ : Type} (bus : SpiBus σ) (st : MCPState σ) (l : List Char)
    (hnt : ∀ c ∈ l, ¬(c = '\n' ∨ c = '\r')) (hlen : l.length ≤ 256)
    (hbuf : st.cmdBuffer = []) :
    update bus st (l ++ ['\n']) =
      ({ (dispatch bus { st with cmdBuffer := l } (trimChars l)).1 with cmdBuffer := [] },
       (dispatch bus { st with cmdBuffer := l } (trimChars l)).2) := by
  unfold update
  rw [List.foldl_append,
    foldl_accum bus l st [] hnt (by rw [hbuf]; simpa using hlen), hbuf]
  show updateByte bus ({ st with cmdBuffer := ([] : List Char) ++ l }, []) '\n' = _
  rw [List.nil_append]
  unfold updateByte
  dsimp only
  rcases Decidable.em (l = []) with hl | hl
  · subst hl
    rw [if_pos (by simp)]
    rw [if_neg (by simp)]
    have hD : dispatch bus { st with cmdBuffer := ([] : List Char) } (trimChars []) =
        ({ st with cmdBuffer := ([] : List Char) }, []) := by
      unfold dispatch trimChars
      simp
    rw [hD]
  · rw [if_pos (by simp)]
    rw [if_pos (by simpa using List.length_pos.mpr hl)]
    unfold processCommand
    simp

/-- A schedule of complete command lines none of which is a release line
leaves a blocking breakpoint loop spinning forever. -/
theorem bpLoop_stay {σ : Type} (bus : SpiBus σ) (lines : List (List Char)) :
    ∀ (st : MCPState σ) (out : List String),
      st.atBreakpoint = true → st.breakpointsEnabled = true → st.paused = true →
      st.cmdBuffer = [] →
      (∀ l ∈ lines, l.length ≤ 256 ∧ (∀ c ∈ l, ¬(c = '\n' ∨ c = '\r')) ∧
        releaseLine (trimChars l) = false) →
      bpLoop bus (lines.map (fun l => l ++ ['\n'])) st out = none := by
  induction lines with
  | nil =>
    intro st out hA hE _ _ _
    rw [List.map_nil]
    unfold bpLoop
    rw [hA, hE]
    simp
  | cons l rest ih =>
    intro st out hA hE hP hbuf hrel
    rw [List.map_cons]
    unfold bpLoop
    rw [hA, hE]
    simp only [Bool.and_self, if_true]
    obtain ⟨hl1, hl2, hl3⟩ := hrel l (List.mem_cons_self l rest)
    rw [update_line bus st l hl2 hl1 hbuf]
    have hstay := dispatch_stay bus { st with cmdBuffer := l } (trimChars l) hA hE hP hl3
    exact ih _ _ hstay.1 hstay.2.1 hstay.2.2 rfl
      (fun x hx => hrel x (List.mem_cons_of_mem l hx))

/-! ### Evaluating `dispatch` on the concrete release commands -/

/-- Dispatching the bare line `C` while at a breakpoint clears only
`atBreakpoint`. -/
theorem dispatch_C {σ : Type} (bus : SpiBus σ) (st : MCPState σ)
    (hA : st.atBreakpoint = true) :
    dispatch bus st ['C'] = ({ st with atBreakpoint := false }, [echoOf ['C']]) := by
  unfold dispatch cCase
  rw [hA]
  simp

/-- Dispatching the bare line `P` toggles: it resumes when paused and
pauses when running. -/
theorem dispatch_Ptog {σ : Type} (bus : SpiBus σ) (st : MCPState σ) :
    dispatch bus st ['P'] =
      (if st.paused then
        ({ st with paused := false, atBreakpoint := false },
         [echoOf ['P'], ("[MCP] Sketch RESUMED")])
      else
        ({ st with paused := true },
         [echoOf ['P'], ("[MCP] Sketch PAUSED - MCP has full control")])) := by
  unfold dispatch pCase pause resume
  by_cases hp : st.paused
  · rw [if_pos hp]; simp [hp]
  · rw [if_neg hp]; simp [hp]

/-- Dispatching the line `P 0` forces a resume. -/
theorem dispatch_P0 {σ : Type} (bus : SpiBus σ) (st : MCPState σ) :
    dispatch bus st ['P', ' ', '0'] =
      ({ st with paused := false, atBreakpoint := false },
       [echoOf ['P', ' ', '0'], ("[MCP] Sketch RESUMED")]) := by
  unfold dispatch pCase resume
  simp

/-! ### Reachable-state invariant -/

/-- The invariant `atBreakpoint → paused` holds in every reachable
state. -/
theorem reachable_Inv {σ : Type} (bus : SpiBus σ) :
    ∀ st : MCPState σ, Reachable bus st → st.atBreakpoint = true → st.paused = true := by
  intro st h
  induction h with
  | init => intro h2; exact absurd h2 (by simp [initState])
  | step_begin d _ ih => exact ih
  | step_update input _ ih => exact update_Inv bus input _ ih
  | step_bpEntry _ _ _ => intro _; rfl
  | step_process cmd _ ih => exact processCommand_Inv bus _ cmd ih
  | step_pause _ _ => intro _; rfl
  | step_resume _ _ => intro h2; exact absurd h2 (by simp [resume])
  | step_breakpoint name chunks out hr heq ih =>
    rename_i s s'
    cases hE : s.breakpointsEnabled with
    | true =>
      have := breakpoint_enabled_some bus s name chunks s' out hE heq
      intro h2; exact absurd h2 (by simp [this.2.1])
    | false =>
      rw [breakpoint_disabled bus s name chunks hE] at heq
      obtain ⟨h1, _⟩ := Prod.mk.injEq .. ▸ (Option.some.injEq .. ▸ heq)
      rw [← h1]; exact ih
  | step_enable _ ih => exact ih
  | step_disable _ ih => exact ih

/-! ### The `C`-released breakpoint hit, and counter saturation -/

/-- A breakpoint call from a quiescent state (`k` prior hits), released
by a single `C` line: the hit counter advances by one modulo 2^16. -/
theorem breakpoint_C_hit (k : Nat) :
    breakpoint nullBus ⟨none, [], false, false, true, false, k⟩ none [bpChunkC] =
      some (⟨none, [], false, false, true, false, (k + 1) % 65536⟩,
        [breakpointMsg ((k + 1) % 65536) none, echoOf ['C'], breakpointContinueMsg none]) := by
  rfl

/-- Closed form for `hitN`: after `n` released breakpoint hits the
counter reads `n % 65536` and all flags are back to their initial
values. -/
theorem hitN_spec : ∀ n : Nat, hitN n = ⟨none, [], false, false, true, false, n % 65536⟩ := by
  intro n
  induction n with
  | zero => rfl
  | succ n ih =>
    unfold hitN
    rw [ih, breakpoint_C_hit (n % 65536)]
    have h : (n % 65536 + 1) % 65536 = (n + 1) % 65536 := by omega
    rw [h]

/-- Every `hitN` state is reachable. -/
theorem hitN_reachable : ∀ n : Nat, Reachable nullBus (hitN n) := by
  intro n
  induction n with
  | zero => exact Reachable.init
  | succ n ih =>
    have hb : breakpoint nullBus (hitN n) none [bpChunkC] =
        some (⟨none, [], false, false, true, false, (n % 65536 + 1) % 65536⟩,
          [breakpointMsg ((n % 65536 + 1) % 65536) none, echoOf ['C'],
            breakpointContinueMsg none]) := by
      rw [hitN_spec n]; exact breakpoint_C_hit (n % 65536)
    unfold hitN
    rw [hb]
    exact Reachable.step_breakpoint none [bpChunkC] _ ih hb

/-! ### Recorder and mock bus evaluation -/

/-- On the recording endpoint, a `wishboneWrite` performs exactly one
4-byte transaction: opcode `0x01`, address high byte, address low byte,
data byte. -/
theorem wishboneWrite_rec (A D : Nat) (done : List (List Nat)) :
    wishboneWrite recBus (some ⟨done, []⟩) A D =
      some ⟨done ++ [[1, A % 65536 / 256, A % 65536 % 256, D % 256]], []⟩ := by
  unfold wishboneWrite recBus
  dsimp only
  have h1 : (A % 65536) >>> 8 % 256 = A % 65536 / 256 := by
    rw [Nat.shiftRight_eq_div_pow]
    norm_num
    omega
  rw [h1]
  simp

/-- On the recording endpoint, a `wishboneRead` performs exactly one
4-byte transaction: opcode `0x00`, the two address bytes, one dummy
`0x00` byte; the recorder answers 0. -/
theorem wishboneRead_rec (A : Nat) (done : List (List Nat)) :
    wishboneRead recBus (some ⟨done, []⟩) A =
      (some ⟨done ++ [[0, A % 65536 / 256, A % 65536 % 256, 0]], []⟩, 0) := by
  unfold wishboneRead recBus
  dsimp only
  have h1 : (A % 65536) >>> 8 % 256 = A % 65536 / 256 := by
    rw [Nat.shiftRight_eq_div_pow]
    norm_num
    omega
  rw [h1]
  simp

/-- On the mock bus, a write of `D` at `A` followed by a read at `A`
returns `D`: the round trip through the 4-byte transaction encoding. -/
theorem mock_roundtrip (A D : Nat) (hA : A < 65536) (hD : D < 256) (m : Nat → Nat) :
    (wishboneRead mockBus (wishboneWrite mockBus (some ⟨m, []⟩) A D) A).2 = D := by
  unfold wishboneRead wishboneWrite mockBus mockTransfer
  rw [Nat.mod_eq_of_lt hA, Nat.mod_eq_of_lt hD]
  simp only [List.cons_append, List.nil_append]
  have hsplit : 256 * (A >>> 8 % 256) + A % 256 = A := by
    rw [Nat.shiftRight_eq_div_pow]
    norm_num
    omega
  simp [hsplit, Nat.mod_eq_of_lt hD]

/-- The `M` loop on the recording endpoint: `count` independent 4-byte
read transactions at the consecutive (16-bit wrapped) addresses
`addr, addr+1, ...`. -/
theorem mRun_rec (addr : Nat) : ∀ (count : Nat) (done : List (List Nat)),
    (mRun recBus (some ⟨done, []⟩) addr count).1 =
      some ⟨done ++ (List.range count).map (fun i =>
        [0, (addr + i) % 65536 / 256, (addr + i) % 65536 % 256, 0]), []⟩ := by
  intro count
  induction count with
  | zero => intro done; simp [mRun]
  | succ n ih =>
    intro done
    show (wishboneRead recBus (mRun recBus (some ⟨done, []⟩) addr n).1 (addr + n)).1 = _
    rw [ih done, wishboneRead_rec]
    rw [List.range_succ, List.map_append, List.map_cons, List.map_nil, ← List.append_assoc]

/-! ### Verb-specific usage errors and the unknown-verb error -/

theorem dispatch_W_short {σ : Type} (bus : SpiBus σ) (st : MCPState σ) (cs : List Char)
    (hW : cs.headD ' ' = 'W' ∨ cs.headD ' ' = 'w') (hlen : cs.length < 9) :
    dispatch bus st cs = (st, [echoOf cs, ("ERR: W AAAA DD")]) := by
  have hne : ¬cs.length = 0 := by
    rcases hW with h | h <;> (intro h0; rw [List.length_eq_zero] at h0; subst h0; simp at h)
  unfold dispatch
  rw [if_neg hne]
  dsimp only
  rw [if_pos hW]
  unfold wCase
  rw [if_neg (by omega)]

theorem dispatch_R_short {σ : Type} (bus : SpiBus σ) (st : MCPState σ) (cs : List Char)
    (hW : ¬(cs.headD ' ' = 'W' ∨ cs.headD ' ' = 'w'))
    (hR : cs.headD ' ' = 'R' ∨ cs.headD ' ' = 'r') (hlen : cs.length < 6) :
    dispatch bus st cs = (st, [echoOf cs, ("ERR: R AAAA")]) := by
  have hne : ¬cs.length = 0 := by
    rcases hR with h | h <;> (intro h0; rw [List.length_eq_zero] at h0; subst h0; simp at h)
  unfold dispatch
  rw [if_neg hne]
  dsimp only
  rw [if_neg hW, if_pos hR]
  unfold rCase
  rw [if_neg (by omega)]

theorem dispatch_M_short {σ : Type} (bus : SpiBus σ) (st : MCPState σ) (cs : List Char)
    (hW : ¬(cs.headD ' ' = 'W' ∨ cs.headD ' ' = 'w'))
    (hR : ¬(cs.headD ' ' = 'R' ∨ cs.headD ' ' = 'r'))
    (hM : cs.headD ' ' = 'M' ∨ cs.headD ' ' = 'm') (hlen : cs.length < 9) :
    dispatch bus st cs = (st, [echoOf cs, ("ERR: M AAAA NN")]) := by
  have hne : ¬cs.length = 0 := by
    rcases hM with h | h <;> (intro h0; rw [List.length_eq_zero] at h0; subst h0; simp at h)
  unfold dispatch
  rw [if_neg hne]
  dsimp only
  rw [if_neg hW, if_neg hR, if_pos hM]
  unfold mCase
  rw [if_neg (by omega)]

/-- The known command verbs (both cases, plus the `?` help alias). -/
def knownVerbs : List Char :=
  ['W', 'w', 'R', 'r', 'M', 'm', 'D', 'd', 'J', 'j', 'P', 'p', 'C', 'c', 'B', 'b', 'H', 'h', '?']

theorem dispatch_unknown {σ : Type} (bus : SpiBus σ) (st : MCPState σ) (cs : List Char)
    (hne : cs ≠ []) (hni : cs.headD ' ' ∉ knownVerbs) :
    dispatch bus st cs = (st, [echoOf cs, ("ERR: Unknown command (H for help)")]) := by
  have hW : ¬(cs.headD ' ' = 'W' ∨ cs.headD ' ' = 'w') := by
    intro h; apply hni; rcases h with h | h <;> (rw [h]; decide)
  have hR : ¬(cs.headD ' ' = 'R' ∨ cs.headD ' ' = 'r') := by
    intro h; apply hni; rcases h with h | h <;> (rw [h]; decide)
  have hM : ¬(cs.headD ' ' = 'M' ∨ cs.headD ' ' = 'm') := by
    intro h; apply hni; rcases h with h | h <;> (rw [h]; decide)
  have hD : ¬(cs.headD ' ' = 'D' ∨ cs.headD ' ' = 'd') := by
    intro h; apply hni; rcases h with h | h <;> (rw [h]; decide)
  have hJ : ¬(cs.headD ' ' = 'J' ∨ cs.headD ' ' = 'j') := by
    intro h; apply hni; rcases h with h | h <;> (rw [h]; decide)
  have hP : ¬(cs.headD ' ' = 'P' ∨ cs.headD ' ' = 'p') := by
    intro h; apply hni; rcases h with h | h <;> (rw [h]; decide)
  have hC : ¬(cs.headD ' ' = 'C' ∨ cs.headD ' ' = 'c') := by
    intro h; apply hni; rcases h with h | h <;> (rw [h]; decide)
  have hB : ¬(cs.headD ' ' = 'B' ∨ cs.headD ' ' = 'b') := by
    intro h; apply hni; rcases h with h | h <;> (rw [h]; decide)
  have hH : ¬(cs.headD ' ' = 'H' ∨ cs.headD ' ' = 'h' ∨ cs.headD ' ' = '?') := by
    intro h; apply hni; rcases h with h | h | h <;> (rw [h]; decide)
  unfold dispatch
  rw [if_neg (fun h0 => hne (List.length_eq_zero.mp h0))]
  dsimp only
  rw [if_neg hW, if_neg hR, if_neg hM, if_neg hD, if_neg hJ, if_neg hP, if_neg hC,
    if_neg hB, if_neg hH]

/-- The successful `M` dispatch: parse, clamp, run the read loop. -/
theorem dispatch_M_go {σ : Type} (bus : SpiBus σ) (st : MCPState σ) (cs : List Char)
    (hW : ¬(cs.headD ' ' = 'W' ∨ cs.headD ' ' = 'w'))
    (hR : ¬(cs.headD ' ' = 'R' ∨ cs.headD ' ' = 'r'))
    (hM : cs.headD ' ' = 'M' ∨ cs.headD ' ' = 'm') (hlen : 9 ≤ cs.length) :
    dispatch bus st cs =
      ({ st with spi := (mRun bus st.spi (parseAddr cs)
            (if 64 < parseByteAt7 cs then 64 else parseByteAt7 cs)).1 },
       [echoOf cs, ("OK M ") ++ hex4 (parseAddr cs) ++ (":") ++
          (mRun bus st.spi (parseAddr cs)
            (if 64 < parseByteAt7 cs then 64 else parseByteAt7 cs)).2]) := by
  have hne : ¬cs.length = 0 := by omega
  unfold dispatch
  rw [if_neg hne]
  dsimp only
  rw [if_neg hW, if_neg hR, if_pos hM]
  unfold mCase
  rw [if_pos hlen]

/-- The `B 0` dispatch: disable breakpoints globally and force-clear
`atBreakpoint`. -/
theorem dispatch_B0 {σ : Type} (bus : SpiBus σ) (st : MCPState σ) (cs : List Char)
    (hB : cs.headD ' ' = 'B' ∨ cs.headD ' ' = 'b') (hlen : 3 ≤ cs.length)
    (hg : cs.getD 2 ' ' = '0') :
    dispatch bus st cs =
      ({ st with breakpointsEnabled := false, atBreakpoint := false },
       [echoOf cs, ("[MCP] Breakpoints DISABLED - all breakpoints will be skipped")]) := by
  have hne : ¬cs.length = 0 := by omega
  have hW : ¬(cs.headD ' ' = 'W' ∨ cs.headD ' ' = 'w') := by
    rcases hB with h | h <;> (rw [h]; decide)
  have hR : ¬(cs.headD ' ' = 'R' ∨ cs.headD ' ' = 'r') := by
    rcases hB with h | h <;> (rw [h]; decide)
  have hM : ¬(cs.headD ' ' = 'M' ∨ cs.headD ' ' = 'm') := by
    rcases hB with h | h <;> (rw [h]; decide)
  have hD : ¬(cs.headD ' ' = 'D' ∨ cs.headD ' ' = 'd') := by
    rcases hB with h | h <;> (rw [h]; decide)
  have hJ : ¬(cs.headD ' ' = 'J' ∨ cs.headD ' ' = 'j') := by
    rcases hB with h | h <;> (rw [h]; decide)
  have hP : ¬(cs.headD ' ' = 'P' ∨ cs.headD ' ' = 'p') := by
    rcases hB with h | h <;> (rw [h]; decide)
  have hC : ¬(cs.headD ' ' = 'C' ∨ cs.headD ' ' = 'c') := by
    rcases hB with h | h <;> (rw [h]; decide)
  have hg1 : ¬cs.getD 2 ' ' = '1' := by rw [hg]; decide
  unfold dispatch
  rw [if_neg hne]
  dsimp only
  rw [if_neg hW, if_neg hR, if_neg hM, if_neg hD, if_neg hJ, if_neg hP, if_neg hC, if_pos hB]
  unfold bCase
  rw [if_pos hlen, if_neg hg1, if_pos hg]

/-! ### Claim theorems -/

/-- C9: for every address and data value, if no bus endpoint is
configured (the SPI pointer is null), `wishboneWrite` is a no-op and
`wishboneRead` returns 0 — defined degraded behavior rather than an
error. -/
theorem c9_theorem {σ : Type} (bus : SpiBus σ) (address data : Nat) :
    wishboneWrite bus none address data = none ∧
      wishboneRead bus none address = (none, 0) :=
  ⟨rfl, rfl⟩

/-- C4: for every 16-bit address `A` and 8-bit value `D`, the write
transaction transfers exactly the 4 bytes `0x01`, high byte of `A`, low
byte of `A`, `D`; the read transaction transfers `0x00`, high byte, low
byte, then one dummy `0x00` byte whose response byte is the returned
value; and on a loopback/mock bus endpoint a `wishboneWrite(A, D)`
followed by `wishboneRead(A)` returns `D`. -/
theorem c4_theorem (A D : Nat) (hA : A < 65536) (hD : D < 256) :
    wishboneWrite recBus (some recInit) A D = some ⟨[[1, A / 256, A % 256, D]], []⟩ ∧
    (wishboneRead recBus (some recInit) A).1 = some ⟨[[0, A / 256, A % 256, 0]], []⟩ ∧
    (wishboneRead recBus (some recInit) A).2 = 0 ∧
    ∀ m : Nat → Nat,
      (wishboneRead mockBus (wishboneWrite mockBus (some ⟨m, []⟩) A D) A).2 = D := by
  refine ⟨?_, ?_, ?_, fun m => mock_roundtrip A D hA hD m⟩
  · rw [show (some recInit : Option Recorder) = some ⟨[], []⟩ from rfl, wishboneWrite_rec,
      Nat.mod_eq_of_lt hA, Nat.mod_eq_of_lt hD]
    simp
  · rw [show (some recInit : Option Recorder) = some ⟨[], []⟩ from rfl, wishboneRead_rec,
      Nat.mod_eq_of_lt hA]
    simp
  · rw [show (some recInit : Option Recorder) = some ⟨[], []⟩ from rfl, wishboneRead_rec]

/-- C4 witness at `A = 0x8100`, `D = 0xFF` with an all-zero mock
memory. -/
theorem c4_witness :
    (0x8100 < 65536 ∧ 0xFF < 256) ∧
    wishboneWrite recBus (some recInit) 0x8100 0xFF =
      some ⟨[[1, 0x8100 / 256, 0x8100 % 256, 0xFF]], []⟩ ∧
    (wishboneRead mockBus (wishboneWrite mockBus (some ⟨fun x => 0, []⟩) 0x8100 0xFF)
        0x8100).2 = 0xFF :=
  ⟨⟨by decide, by decide⟩,
   (c4_theorem 0x8100 0xFF (by decide) (by decide)).1,
   (c4_theorem 0x8100 0xFF (by decide) (by decide)).2.2.2 (fun x => 0)⟩

/-- C5: the command buffer never exceeds its fixed 256-character
capacity: bytes are appended only while capacity remains, bytes beyond
capacity are dropped, a terminator dispatches the buffered line and
resets the buffer, and a terminator on an empty buffer is ignored. -/
theorem c5_theorem {σ : Type} (bus : SpiBus σ) :
    (∀ (st : MCPState σ) (input : List Char), st.cmdBuffer.length ≤ 256 →
      ((update bus st input).1).cmdBuffer.length ≤ 256) ∧
    (∀ (st : MCPState σ) (out : List String) (c : Char), ¬(c = '\n' ∨ c = '\r') →
      st.cmdBuffer.length < 256 →
      updateByte bus (st, out) c = ({ st with cmdBuffer := st.cmdBuffer ++ [c] }, out)) ∧
    (∀ (st : MCPState σ) (out : List String) (c : Char), ¬(c = '\n' ∨ c = '\r') →
      256 ≤ st.cmdBuffer.length → updateByte bus (st, out) c = (st, out)) ∧
    (∀ (st : MCPState σ) (out : List String) (c : Char), (c = '\n' ∨ c = '\r') →
      st.cmdBuffer = [] → updateByte bus (st, out) c = (st, out)) ∧
    (∀ (st : MCPState σ) (out : List String) (c : Char), (c = '\n' ∨ c = '\r') →
      st.cmdBuffer ≠ [] →
      updateByte bus (st, out) c =
        ({ (processCommand bus st st.cmdBuffer).1 with cmdBuffer := [] },
         out ++ (processCommand bus st st.cmdBuffer).2)) := by
  refine ⟨fun st input h => update_len bus input (st, []) h, ?_, ?_, ?_, ?_⟩
  · intro st out c hc hlen
    unfold updateByte
    dsimp only
    rw [if_neg hc, if_pos hlen]
  · intro st out c hc hlen
    unfold updateByte
    dsimp only
    rw [if_neg hc, if_neg (by omega)]
  · intro st out c hc hbuf
    unfold updateByte
    dsimp only
    rw [if_pos hc, if_neg (by simp [hbuf])]
  · intro st out c hc hbuf
    unfold updateByte
    dsimp only
    rw [if_pos hc, if_pos (by simpa using List.length_pos.mpr hbuf)]

set_option maxRecDepth 4000 in
/-- C5 witness: concrete instances of each clause, including a buffer
already at capacity. -/
theorem c5_witness :
    (initStateU.cmdBuffer.length ≤ 256 ∧
      ((update nullBus initStateU ['H', '\n']).1).cmdBuffer.length ≤ 256) ∧
    (¬(('X' : Char) = '\n' ∨ ('X' : Char) = '\r') ∧ initStateU.cmdBuffer.length < 256 ∧
      updateByte nullBus (initStateU, []) 'X' =
        ({ initStateU with cmdBuffer := initStateU.cmdBuffer ++ ['X'] }, [])) ∧
    (256 ≤ ({ initStateU with cmdBuffer := List.replicate 256 'a' } :
        MCPState Unit).cmdBuffer.length ∧
      updateByte nullBus ({ initStateU with cmdBuffer := List.replicate 256 'a' }, []) 'X' =
        ({ initStateU with cmdBuffer := List.replicate 256 'a' }, [])) ∧
    (initStateU.cmdBuffer = [] ∧ updateByte nullBus (initStateU, []) '\n' = (initStateU, [])) ∧
    (({ initStateU with cmdBuffer := ['H'] } : MCPState Unit).cmdBuffer ≠ [] ∧
      updateByte nullBus ({ initStateU with cmdBuffer := ['H'] }, []) '\n' =
        ({ (processCommand nullBus { initStateU with cmdBuffer := ['H'] }
              ({ initStateU with cmdBuffer := ['H'] } : MCPState Unit).cmdBuffer).1 with
            cmdBuffer := [] },
         [] ++ (processCommand nullBus { initStateU with cmdBuffer := ['H'] }
              ({ initStateU with cmdBuffer := ['H'] } : MCPState Unit).cmdBuffer).2)) :=
  ⟨⟨by decide, (c5_theorem nullBus).1 initStateU ['H', '\n'] (by decide)⟩,
   ⟨by decide, by decide,
     (c5_theorem nullBus).2.1 initStateU [] 'X' (by decide) (by decide)⟩,
   ⟨by simp,
     (c5_theorem nullBus).2.2.1 { initStateU with cmdBuffer := List.replicate 256 'a' } [] 'X'
       (by decide) (by simp)⟩,
   ⟨rfl, (c5_theorem nullBus).2.2.2.1 initStateU [] '\n' (by decide) rfl⟩,
   ⟨by decide, (c5_theorem nullBus).2.2.2.2 { initStateU with cmdBuffer := ['H'] } [] '\n'
     (by decide) (by decide)⟩⟩

/-- `dispatch` on an exactly-9-character `M` command, with the two
fixed-offset fields extracted. -/
theorem dispatch_M9 {σ : Type} (bus : SpiBus σ) (st : MCPState σ)
    (w1 a1 a2 a3 a4 w2 n1 n2 : Char) :
    dispatch bus st ['M', w1, a1, a2, a3, a4, w2, n1, n2] =
      ({ st with spi := (mRun bus st.spi (toUint16 (strtol16 [a1, a2, a3, a4]))
            (if 64 < toUint8 (strtol16 [n1, n2]) then 64
             else toUint8 (strtol16 [n1, n2]))).1 },
       [echoOf ['M', w1, a1, a2, a3, a4, w2, n1, n2],
        ("OK M ") ++ hex4 (toUint16 (strtol16 [a1, a2, a3, a4])) ++ (":") ++
          (mRun bus st.spi (toUint16 (strtol16 [a1, a2, a3, a4]))
            (if 64 < toUint8 (strtol16 [n1, n2]) then 64
             else toUint8 (strtol16 [n1, n2]))).2]) := by
  refine Eq.trans (dispatch_M_go bus st _ ?_ ?_ ?_ ?_) ?_
  · simp
  · simp
  · exact Or.inl rfl
  · simp
  · rfl

/-- C6: an `M` command whose count field parses above 64 behaves
identically (same final state, same post-echo output) to the same
command with a count field parsing to 64; and the multi-byte read is
performed as `count` independent single-byte 4-byte read transactions at
the consecutive 16-bit addresses `A, A+1, ...`, not as a burst. -/
theorem c6_theorem {σ : Type} (bus : SpiBus σ) (st : MCPState σ)
    (w1 a1 a2 a3 a4 w2 n1 n2 m1 m2 : Char)
    (h1 : 64 < toUint8 (strtol16 [n1, n2])) (h2 : toUint8 (strtol16 [m1, m2]) = 64) :
    ((dispatch bus st ['M', w1, a1, a2, a3, a4, w2, n1, n2]).1 =
        (dispatch bus st ['M', w1, a1, a2, a3, a4, w2, m1, m2]).1 ∧
      (dispatch bus st ['M', w1, a1, a2, a3, a4, w2, n1, n2]).2.tail =
        (dispatch bus st ['M', w1, a1, a2, a3, a4, w2, m1, m2]).2.tail) ∧
    ∀ addr count : Nat,
      (mRun recBus (some recInit) addr count).1 =
        some ⟨(List.range count).map (fun i =>
          [0, (addr + i) % 65536 / 256, (addr + i) % 65536 % 256, 0]), []⟩ := by
  constructor
  · rw [dispatch_M9, dispatch_M9, h2, if_pos h1, if_neg (by omega)]
    exact ⟨rfl, rfl⟩
  · intro addr count
    rw [show (some recInit : Option Recorder) = some ⟨[], []⟩ from rfl, mRun_rec]
    simp

/-- C6 witness: `M 8100 FF` (count 255, clamped) against `M 8100 40`
(count 64), and the 3-transaction trace of a count-3 read at the top of
the address space. -/
theorem c6_witness :
    (64 < toUint8 (strtol16 ['F', 'F']) ∧ toUint8 (strtol16 ['4', '0']) = 64) ∧
    (dispatch nullBus initStateU ['M', ' ', '8', '1', '0', '0', ' ', 'F', 'F']).1 =
      (dispatch nullBus initStateU ['M', ' ', '8', '1', '0', '0', ' ', '4', '0']).1 ∧
    (mRun recBus (some recInit) 0xFFFE 3).1 =
      some ⟨(List.range 3).map (fun i =>
        [0, (0xFFFE + i) % 65536 / 256, (0xFFFE + i) % 65536 % 256, 0]), []⟩ :=
  ⟨⟨by decide, by decide⟩,
   ((c6_theorem nullBus initStateU ' ' '8' '1' '0' '0' ' ' 'F' 'F' '4' '0'
      (by decide) (by decide)).1).1,
   (c6_theorem nullBus initStateU ' ' '8' '1' '0' '0' ' ' 'F' 'F' '4' '0'
      (by decide) (by decide)).2 0xFFFE 3⟩

/-- C3 counterexample: the claim says a known verb with malformed
arguments yields a verb-specific usage error with no state change, but
`W GGGG GG` (length 9, no hex digits in either field) is executed:
`strtol` parses both fields as 0, a bus write transaction
`[0x01, 0x00, 0x00, 0x00]` is emitted, and `OK W 0000=00` is printed
instead of `ERR: W AAAA DD`. -/
theorem c3_counterexample :
    (processCommand recBus crState cmdWGarbage).2 =
      [("[MCP] W GGGG GG"), ("OK W 0000=00")] ∧
    (processCommand recBus crState cmdWGarbage).1.spi = some ⟨[[1, 0, 0, 0]], []⟩ := by
  constructor <;> rfl

/-- C3 (amended): the interpreter detects malformedness only by line
length.  A known `W`/`R`/`M` verb whose trimmed line is shorter than the
verb requires (9, 6 and 9 characters respectively) produces that verb's
usage error and leaves the entire state — flags and bus — unchanged; a
line whose first non-whitespace character is not a known verb produces
the generic error and leaves the state unchanged.  (Fields of sufficient
length are handed to `strtol` unvalidated.) -/
theorem c3_theorem {σ : Type} (bus : SpiBus σ) :
    (∀ (st : MCPState σ) (cmd : List Char),
      ((trimChars cmd).headD ' ' = 'W' ∨ (trimChars cmd).headD ' ' = 'w') →
      (trimChars cmd).length < 9 →
      processCommand bus st cmd = (st, [echoOf (trimChars cmd), ("ERR: W AAAA DD")])) ∧
    (∀ (st : MCPState σ) (cmd : List Char),
      ((trimChars cmd).headD ' ' = 'R' ∨ (trimChars cmd).headD ' ' = 'r') →
      (trimChars cmd).length < 6 →
      processCommand bus st cmd = (st, [echoOf (trimChars cmd), ("ERR: R AAAA")])) ∧
    (∀ (st : MCPState σ) (cmd : List Char),
      ((trimChars cmd).headD ' ' = 'M' ∨ (trimChars cmd).headD ' ' = 'm') →
      (trimChars cmd).length < 9 →
      processCommand bus st cmd = (st, [echoOf (trimChars cmd), ("ERR: M AAAA NN")])) ∧
    (∀ (st : MCPState σ) (cmd : List Char), trimChars cmd ≠ [] →
      (trimChars cmd).headD ' ' ∉ knownVerbs →
      processCommand bus st cmd =
        (st, [echoOf (trimChars cmd), ("ERR: Unknown command (H for help)")])) := by
  refine ⟨?_, ?_, ?_, ?_⟩
  · intro st cmd hW hlen
    exact dispatch_W_short bus st (trimChars cmd) hW hlen
  · intro st cmd hR hlen
    have hW : ¬((trimChars cmd).headD ' ' = 'W' ∨ (trimChars cmd).headD ' ' = 'w') := by
      rcases hR with h | h <;> (rw [h]; decide)
    exact dispatch_R_short bus st (trimChars cmd) hW hR hlen
  · intro st cmd hM hlen
    have hW : ¬((trimChars cmd).headD ' ' = 'W' ∨ (trimChars cmd).headD ' ' = 'w') := by
      rcases hM with h | h <;> (rw [h]; decide)
    have hR : ¬((trimChars cmd).headD ' ' = 'R' ∨ (trimChars cmd).headD ' ' = 'r') := by
      rcases hM with h | h <;> (rw [h]; decide)
    exact dispatch_M_short bus st (trimChars cmd) hW hR hM hlen
  · intro st cmd hne hni
    exact dispatch_unknown bus st (trimChars cmd) hne hni

/-- C3 witness: too-short `W 12`, `R 8`, `M 81 2` lines and the unknown
verb `Z123`, each from the initial state. -/
theorem c3_witness :
    (((trimChars ['W', ' ', '1', '2']).headD ' ' = 'W' ∨
        (trimChars ['W', ' ', '1', '2']).headD ' ' = 'w') ∧
      (trimChars ['W', ' ', '1', '2']).length < 9 ∧
      processCommand nullBus initStateU ['W', ' ', '1', '2'] =
        (initStateU, [echoOf (trimChars ['W', ' ', '1', '2']), ("ERR: W AAAA DD")])) ∧
    (processCommand nullBus initStateU ['R', ' ', '8'] =
      (initStateU, [echoOf (trimChars ['R', ' ', '8']), ("ERR: R AAAA")])) ∧
    (processCommand nullBus initStateU ['M', ' ', '8', '1', ' ', '2'] =
      (initStateU, [echoOf (trimChars ['M', ' ', '8', '1', ' ', '2']), ("ERR: M AAAA NN")])) ∧
    (trimChars ['Z', '1', '2', '3'] ≠ [] ∧
      (trimChars ['Z', '1', '2', '3']).headD ' ' ∉ knownVerbs ∧
      processCommand nullBus initStateU ['Z', '1', '2', '3'] =
        (initStateU, [echoOf (trimChars ['Z', '1', '2', '3']),
          ("ERR: Unknown command (H for help)")])) :=
  ⟨⟨by decide, by decide,
     (c3_theorem nullBus).1 initStateU ['W', ' ', '1', '2'] (by decide) (by decide)⟩,
   (c3_theorem nullBus).2.1 initStateU ['R', ' ', '8'] (by decide) (by decide),
   (c3_theorem nullBus).2.2.1 initStateU ['M', ' ', '8', '1', ' ', '2'] (by decide) (by decide),
   ⟨by decide, by decide,
     (c3_theorem nullBus).2.2.2 initStateU ['Z', '1', '2', '3'] (by decide) (by decide)⟩⟩

/-- C7 counterexample: `breakpointCount` is a `uint16_t`; it wraps.  The
state after 65535 `C`-released breakpoint hits is reachable, its counter
reads 65535, and one further hit makes the counter 0 — a decrease, so
the counter is not monotonically non-decreasing. -/
theorem c7_counterexample :
    Reachable nullBus (hitN 65535) ∧
    (hitN 65535).breakpointCount = 65535 ∧
    (breakpoint nullBus (hitN 65535) none [bpChunkC]).map
      (fun r => r.1.breakpointCount) = some 0 := by
  refine ⟨hitN_reachable 65535, ?_, ?_⟩
  · rw [hitN_spec 65535]
  · rw [hitN_spec 65535, breakpoint_C_hit 65535]
    rfl

/-- C7 (amended): `breakpointCount` is incremented exactly once per
breakpoint hit, modulo 2^16 (the `uint16_t` counter wraps from 65535 to
0 on the 65536th hit); every other operation — command processing,
pause, resume, enabling and disabling breakpoints — preserves it, so the
count is retained while breakpoints are disabled; and the counter is
non-decreasing across a hit whenever it is below 65535. -/
theorem c7_theorem {σ : Type} (bus : SpiBus σ) :
    (∀ (st : MCPState σ) (name : Option String) (chunks : List (List Char))
        (s' : MCPState σ) (out : List String),
      breakpoint bus st name chunks = some (s', out) →
      s'.breakpointCount = (if st.breakpointsEnabled = true
        then (st.breakpointCount + 1) % 65536 else st.breakpointCount)) ∧
    (∀ (st : MCPState σ) (cmd : List Char),
      (processCommand bus st cmd).1.breakpointCount = st.breakpointCount) ∧
    (∀ st : MCPState σ,
      (pause st).1.breakpointCount = st.breakpointCount ∧
      (resume st).1.breakpointCount = st.breakpointCount ∧
      (enableBreakpoints st).breakpointCount = st.breakpointCount ∧
      (disableBreakpoints st).breakpointCount = st.breakpointCount) ∧
    (∀ (st : MCPState σ) (name : Option String) (chunks : List (List Char))
        (s' : MCPState σ) (out : List String),
      st.breakpointCount < 65535 →
      breakpoint bus st name chunks = some (s', out) →
      st.breakpointCount ≤ s'.breakpointCount) := by
  have hmain : ∀ (st : MCPState σ) (name : Option String) (chunks : List (List Char))
      (s' : MCPState σ) (out : List String),
      breakpoint bus st name chunks = some (s', out) →
      s'.breakpointCount = (if st.breakpointsEnabled = true
        then (st.breakpointCount + 1) % 65536 else st.breakpointCount) := by
    intro st name chunks s' out h
    cases hE : st.breakpointsEnabled with
    | true =>
      rw [if_pos rfl]
      exact (breakpoint_enabled_some bus st name chunks s' out hE h).2.2
    | false =>
      rw [if_neg (by simp)]
      rw [breakpoint_disabled bus st name chunks hE] at h
      obtain ⟨h1, _⟩ := Prod.mk.injEq .. ▸ (Option.some.injEq .. ▸ h)
      rw [← h1]
  refine ⟨hmain, fun st cmd => (processCommand_pres bus st cmd).2,
    fun st => ⟨rfl, rfl, rfl, rfl⟩, ?_⟩
  intro st name chunks s' out hlt h
  rw [hmain st name chunks s' out h]
  cases hE : st.breakpointsEnabled with
  | true => rw [if_pos rfl]; omega
  | false => rw [if_neg (by simp)]

/-- C7 witness: the first hit from the initial state advances the
counter from 0 to 1; processing `H` preserves it; a hit below the wrap
is non-decreasing. -/
theorem c7_witness :
    (breakpoint nullBus initStateU none [bpChunkC] =
        some (⟨none, [], false, false, true, false, (0 + 1) % 65536⟩,
          [breakpointMsg ((0 + 1) % 65536) none, echoOf ['C'], breakpointContinueMsg none]) ∧
      (⟨none, [], false, false, true, false, (0 + 1) % 65536⟩ :
          MCPState Unit).breakpointCount =
        (if initStateU.breakpointsEnabled = true
          then (initStateU.breakpointCount + 1) % 65536 else initStateU.breakpointCount)) ∧
    (processCommand nullBus initStateU ['H']).1.breakpointCount =
      initStateU.breakpointCount ∧
    (initStateU.breakpointCount < 65535 ∧
      initStateU.breakpointCount ≤
        (⟨none, [], false, false, true, false, (0 + 1) % 65536⟩ :
          MCPState Unit).breakpointCount) :=
  ⟨⟨breakpoint_C_hit 0,
    (c7_theorem nullBus).1 initStateU none [bpChunkC] _ _ (breakpoint_C_hit 0)⟩,
   (c7_theorem nullBus).2.1 initStateU ['H'],
   ⟨by decide, (c7_theorem nullBus).2.2.2 initStateU none [bpChunkC] _ _ (by decide)
     (breakpoint_C_hit 0)⟩⟩

/-- C8 counterexample: from a blocking-breakpoint state (`paused` and
`atBreakpoint` both set), two consecutive argument-less `P` commands do
not restore the original state: the first toggle calls `resume()`, which
also clears `atBreakpoint`. -/
theorem c8_counterexample :
    stBlocked.atBreakpoint = true ∧
    (processCommand nullBus
        (processCommand nullBus stBlocked ['P']).1 ['P']).1.atBreakpoint = false ∧
    (processCommand nullBus
        (processCommand nullBus stBlocked ['P']).1 ['P']).1.paused = stBlocked.paused :=
  ⟨rfl, rfl, rfl⟩

/-- C8 (amended): an argument-less `P` command toggles `paused` exactly
once, and two consecutive argument-less `P` commands restore the
`paused` flag; they restore the entire state when `atBreakpoint` is
clear (otherwise the resume half of the toggle clears `atBreakpoint`). -/
theorem c8_theorem {σ : Type} (bus : SpiBus σ) (st : MCPState σ) :
    (processCommand bus st ['P']).1.paused = !st.paused ∧
    (processCommand bus (processCommand bus st ['P']).1 ['P']).1.paused = st.paused ∧
    (st.atBreakpoint = false →
      (processCommand bus (processCommand bus st ['P']).1 ['P']).1 = st) := by
  obtain ⟨sp, bf, j, p, e, a, k⟩ := st
  unfold processCommand
  rw [show trimChars ['P'] = ['P'] from rfl, dispatch_Ptog]
  cases p with
  | true =>
    rw [if_pos rfl]
    dsimp only
    rw [dispatch_Ptog]
    rw [if_neg (by simp)]
    refine ⟨rfl, rfl, ?_⟩
    intro ha
    rw [ha]
  | false =>
    rw [if_neg (by simp)]
    dsimp only
    rw [dispatch_Ptog]
    rw [if_pos rfl]
    refine ⟨rfl, rfl, ?_⟩
    intro ha
    rw [ha]

/-- C8 witness: from the initial (running, no-breakpoint) state, `P`
pauses, a second `P` resumes, and the state is fully restored. -/
theorem c8_witness :
    (processCommand nullBus initStateU ['P']).1.paused = !initStateU.paused ∧
    (processCommand nullBus (processCommand nullBus initStateU ['P']).1 ['P']).1.paused =
      initStateU.paused ∧
    (initStateU.atBreakpoint = false ∧
      (processCommand nullBus (processCommand nullBus initStateU ['P']).1 ['P']).1 =
        initStateU) :=
  ⟨(c8_theorem nullBus initStateU).1, (c8_theorem nullBus initStateU).2.1,
   ⟨rfl, (c8_theorem nullBus initStateU).2.2 rfl⟩⟩

/-- A single complete line whose dispatch clears the blocking condition
makes the breakpoint poll loop exit with exactly that dispatch
applied. -/
theorem bpLoop_single_release {σ : Type} (bus : SpiBus σ) (st : MCPState σ)
    (out : List String) (l : List Char)
    (hA : st.atBreakpoint = true) (hE : st.breakpointsEnabled = true)
    (hbuf : st.cmdBuffer = []) (hnt : ∀ c ∈ l, ¬(c = '\n' ∨ c = '\r'))
    (hlen : l.length ≤ 256)
    (hrel : ((dispatch bus { st with cmdBuffer := l } (trimChars l)).1.atBreakpoint &&
        (dispatch bus { st with cmdBuffer := l } (trimChars l)).1.breakpointsEnabled) = false) :
    bpLoop bus [l ++ ['\n']] st out =
      some ({ (dispatch bus { st with cmdBuffer := l } (trimChars l)).1 with cmdBuffer := [] },
        out ++ (dispatch bus { st with cmdBuffer := l } (trimChars l)).2) := by
  unfold bpLoop
  rw [if_pos (by simp [hA, hE])]
  rw [update_line bus st l hnt hlen hbuf]
  dsimp only
  unfold bpLoop
  rw [if_neg (by simp [hrel])]

/-- C1 counterexample: a blocked `breakpoint` call returns after a bare
`P` command line even though that line is neither a `C` command nor a
`B 0` command and breakpoints remain globally enabled. -/
theorem c1_counterexample :
    (breakpoint nullBus initStateU none [['P', '\n']]).isSome = true ∧
    specReleaseCorB0 (trimChars ['P']) = false ∧
    (breakpoint nullBus initStateU none [['P', '\n']]).map
      (fun r => r.1.breakpointsEnabled) = some true := by
  refine ⟨rfl, rfl, rfl⟩

/-- C1 (amended): a `breakpoint(label)` call made while
`breakpointsEnabled` blocks until a releasing command line is
processed — a `C` line, a `B 0` line, an argument-less `P` line (the
toggle resumes, because the blocked state is paused) or a `P 0` line;
when it returns, `paused` and `atBreakpoint` are false.  Precisely:
(1) any returning call leaves `paused` and `atBreakpoint` false; (2) from
a blocking state, a processed command line clears the blocking condition
exactly when it is one of those release lines; (3) a schedule of
complete non-release lines leaves the call blocked (it does not return). -/
theorem c1_theorem {σ : Type} (bus : SpiBus σ) :
    (∀ (st : MCPState σ) (name : Option String) (chunks : List (List Char))
        (s' : MCPState σ) (out : List String), st.breakpointsEnabled = true →
      breakpoint bus st name chunks = some (s', out) →
      s'.paused = false ∧ s'.atBreakpoint = false) ∧
    (∀ (st : MCPState σ) (cmd : List Char), st.atBreakpoint = true →
      st.breakpointsEnabled = true → st.paused = true →
      (((processCommand bus st cmd).1.atBreakpoint &&
          (processCommand bus st cmd).1.breakpointsEnabled) = false ↔
        releaseLine (trimChars cmd) = true)) ∧
    (∀ (st : MCPState σ) (name : Option String) (lines : List (List Char)),
      st.breakpointsEnabled = true → st.cmdBuffer = [] →
      (∀ l ∈ lines, l.length ≤ 256 ∧ (∀ c ∈ l, ¬(c = '\n' ∨ c = '\r')) ∧
        releaseLine (trimChars l) = false) →
      breakpoint bus st name (lines.map (fun l => l ++ ['\n'])) = none) := by
  refine ⟨?_, ?_, ?_⟩
  · intro st name chunks s' out hE h
    have := breakpoint_enabled_some bus st name chunks s' out hE h
    exact ⟨this.1, this.2.1⟩
  · intro st cmd hA hE hP
    constructor
    · intro hAnd
      cases hrel : releaseLine (trimChars cmd) with
      | true => rfl
      | false =>
        have hstay := dispatch_stay bus st (trimChars cmd) hA hE hP hrel
        rw [show processCommand bus st cmd = dispatch bus st (trimChars cmd) from rfl] at hAnd
        rw [hstay.1, hstay.2.1] at hAnd
        exact absurd hAnd (by simp)
    · intro hrel
      exact dispatch_release bus st (trimChars cmd) hA hP hrel
  · intro st name lines hE hbuf hlines
    unfold breakpoint
    rw [if_neg (by simp [hE])]
    rw [bpLoop_stay bus lines _ _ rfl (by exact hE) rfl (by exact hbuf) hlines]

/-- C1 witness: part (1) at the `C`-released first hit, part (2) at a
blocked state with the non-release line `H`, part (3) with the schedule
consisting of the single line `H`. -/
theorem c1_witness :
    (initStateU.breakpointsEnabled = true ∧
      (⟨none, [], false, false, true, false, (0 + 1) % 65536⟩ :
        MCPState Unit).paused = false) ∧
    (stBlocked.atBreakpoint = true ∧
      (((processCommand nullBus stBlocked ['H']).1.atBreakpoint &&
          (processCommand nullBus stBlocked ['H']).1.breakpointsEnabled) = false ↔
        releaseLine (trimChars ['H']) = true)) ∧
    breakpoint nullBus initStateU none ([['H']].map (fun l => l ++ ['\n'])) = none :=
  ⟨⟨rfl, ((c1_theorem nullBus).1 initStateU none [bpChunkC] _ _ rfl
      (breakpoint_C_hit 0)).1⟩,
   ⟨rfl, (c1_theorem nullBus).2.1 stBlocked ['H'] rfl rfl rfl⟩,
   (c1_theorem nullBus).2.2 initStateU none [['H']] rfl rfl (by decide)⟩

/-- C2 counterexample: the claim says every path that sets
`breakpointsEnabled` to false immediately also sets `atBreakpoint` to
false, but the `disableBreakpoints()` method clears only
`breakpointsEnabled`, leaving `atBreakpoint` set. -/
theorem c2_counterexample :
    (disableBreakpoints stBlocked).breakpointsEnabled = false ∧
    (disableBreakpoints stBlocked).atBreakpoint = true :=
  ⟨rfl, rfl⟩

/-- C2 (amended): the invariant `atBreakpoint → paused` holds in every
state reachable by the operations (including the states a blocking
`breakpoint` call spins in); the `B 0` command path clears
`atBreakpoint` together with `breakpointsEnabled`; and although
`disableBreakpoints()` clears only `breakpointsEnabled`, a
currently-blocking breakpoint call still releases, because the blocking
loop requires both flags. -/
theorem c2_theorem {σ : Type} (bus : SpiBus σ) :
    (∀ st : MCPState σ, Reachable bus st → st.atBreakpoint = true → st.paused = true) ∧
    (∀ (st : MCPState σ) (cmd : List Char),
      ((trimChars cmd).headD ' ' = 'B' ∨ (trimChars cmd).headD ' ' = 'b') →
      3 ≤ (trimChars cmd).length → (trimChars cmd).getD 2 ' ' = '0' →
      (processCommand bus st cmd).1.breakpointsEnabled = false ∧
        (processCommand bus st cmd).1.atBreakpoint = false) ∧
    (∀ (st : MCPState σ) (chunks : List (List Char)) (out : List String),
      bpLoop bus chunks (disableBreakpoints st) out = some (disableBreakpoints st, out)) := by
  refine ⟨reachable_Inv bus, ?_, ?_⟩
  · intro st cmd hB hlen hg
    rw [show processCommand bus st cmd = dispatch bus st (trimChars cmd) from rfl,
      dispatch_B0 bus st (trimChars cmd) hB hlen hg]
    exact ⟨rfl, rfl⟩
  · intro st chunks out
    cases chunks with
    | nil =>
      unfold bpLoop
      rw [if_neg (by simp [disableBreakpoints])]
    | cons chunk rest =>
      unfold bpLoop
      rw [if_neg (by simp [disableBreakpoints])]

/-- C2 witness: the invariant at the reachable blocking-entry state, the
`B 0` command from a blocked state, and the immediate loop exit after
`disableBreakpoints()`. -/
theorem c2_witness :
    (Reachable nullBus (⟨none, [], false, true, true, true, (0 + 1) % 65536⟩ : MCPState Unit) ∧
      (⟨none, [], false, true, true, true, (0 + 1) % 65536⟩ :
        MCPState Unit).atBreakpoint = true ∧
      (⟨none, [], false, true, true, true, (0 + 1) % 65536⟩ :
        MCPState Unit).paused = true) ∧
    ((processCommand nullBus stBlocked ['B', ' ', '0']).1.breakpointsEnabled = false ∧
      (processCommand nullBus stBlocked ['B', ' ', '0']).1.atBreakpoint = false) ∧
    bpLoop nullBus [['C', '\n']] (disableBreakpoints stBlocked) [] =
      some (disableBreakpoints stBlocked, []) :=
  ⟨⟨Reachable.step_bpEntry Reachable.init rfl,
    rfl,
    (c2_theorem nullBus).1 _ (Reachable.step_bpEntry Reachable.init rfl) rfl⟩,
   (c2_theorem nullBus).2.1 stBlocked ['B', ' ', '0'] (by decide) (by decide) (by decide),
   (c2_theorem nullBus).2.2 stBlocked [['C', '\n']] []⟩

/-- C10: while a `breakpoint()` call is blocking, an argument-less `P`
line or a `P 0` line invokes `resume()`, clearing both `atBreakpoint`
and `paused`, so the blocking loop exits and the call returns — a
release path beyond `C` and `B 0`.  (While blocking, `paused` is true,
which is what routes the argument-less toggle through `resume()`.) -/
theorem c10_theorem {σ : Type} (bus : SpiBus σ) :
    (∀ st : MCPState σ, st.atBreakpoint = true → st.paused = true →
      (processCommand bus st ['P']).1.atBreakpoint = false ∧
      (processCommand bus st ['P']).1.paused = false ∧
      (processCommand bus st ['P', ' ', '0']).1.atBreakpoint = false ∧
      (processCommand bus st ['P', ' ', '0']).1.paused = false) ∧
    (∀ (st : MCPState σ) (name : Option String), st.breakpointsEnabled = true →
      st.cmdBuffer = [] →
      (breakpoint bus st name [['P', '\n']]).isSome = true ∧
      (breakpoint bus st name [['P', ' ', '0', '\n']]).isSome = true) := by
  constructor
  · intro st hA hP
    unfold processCommand
    rw [show trimChars ['P'] = ['P'] from rfl, dispatch_Ptog, if_pos hP,
      show trimChars ['P', ' ', '0'] = ['P', ' ', '0'] from rfl, dispatch_P0]
    exact ⟨rfl, rfl, rfl, rfl⟩
  · intro st name hE hbuf
    constructor
    · unfold breakpoint
      rw [if_neg (by simp [hE])]
      rw [show (['P', '\n'] : List Char) = ['P'] ++ ['\n'] from rfl]
      rw [bpLoop_single_release bus _ _ ['P'] rfl (by exact hE) (by exact hbuf)
        (by decide) (by decide)
        (by rw [show trimChars ['P'] = ['P'] from rfl, dispatch_Ptog, if_pos rfl]; simp)]
      simp
    · unfold breakpoint
      rw [if_neg (by simp [hE])]
      rw [show (['P', ' ', '0', '\n'] : List Char) = ['P', ' ', '0'] ++ ['\n'] from rfl]
      rw [bpLoop_single_release bus _ _ ['P', ' ', '0'] rfl (by exact hE) (by exact hbuf)
        (by decide) (by decide)
        (by rw [show trimChars ['P', ' ', '0'] = ['P', ' ', '0'] from rfl, dispatch_P0]; simp)]
      simp

/-- C10 witness: the two release commands from a concrete blocked state,
and two returning breakpoint calls from the initial state. -/
theorem c10_witness :
    (stBlocked.atBreakpoint = true ∧ stBlocked.paused = true ∧
      (processCommand nullBus stBlocked ['P']).1.atBreakpoint = false ∧
      (processCommand nullBus stBlocked ['P']).1.paused = false) ∧
    (initStateU.breakpointsEnabled = true ∧
      (breakpoint nullBus initStateU none [['P', '\n']]).isSome = true ∧
      (breakpoint nullBus initStateU none [['P', ' ', '0', '\n']]).isSome = true) :=
  ⟨⟨rfl, rfl, ((c10_theorem nullBus).1 stBlocked rfl rfl).1,
    ((c10_theorem nullBus).1 stBlocked rfl rfl).2.1⟩,
   ⟨rfl, ((c10_theorem nullBus).2 initStateU none rfl rfl).1,
    ((c10_theorem nullBus).2 initStateU none rfl rfl).2⟩⟩

end PapilioMCP






